import Mathlib

/-!
# Logic.JS core — shallow embedding and verification

This file embeds the in-memory graph core of the Logic.JS repository
(`packages/core/src`: `QuadTree`, `Cache`, `Port`, `Node`, `Edge`, `Graph`)
as executable Lean definitions, and proves or refutes the frozen claims
about it.

Modelling conventions:
* JS `number` is modelled as `ℚ` (the program only adds, subtracts, halves
  and compares coordinates, so rational arithmetic is exact and decidable).
* JS `Map<string, T>` is modelled as an insertion-ordered association list
  `List (String × T)`; `set` replaces in place or appends, `delete` removes
  the binding, `values()` is the list of second components.
* Mutation is explicit state passing; methods that mutate return the new
  value of the object together with their result.
* The per-entity `Cache` (string-keyed memoization map) is modelled as one
  `Option` field per key actually used by the entity, since each entity
  uses a fixed key set in the source.
* Synchronous events: each Graph operation returns the ordered list of
  graph-level events it emits.  Entity-level events reach the Graph exactly
  through the listeners wired in `setupNodeEventListeners` /
  `setupEdgeEventListeners`; those listeners are inlined at the emit sites,
  which is faithful because every entity stored in a Graph was wired by
  `createNode` / `createEdge` and no listener is ever removed.
-/

namespace LogicJS

/-- `Bounds` from `QuadTree.ts`: axis-aligned rectangle. -/
structure Bounds where
  x : ℚ
  y : ℚ
  width : ℚ
  height : ℚ
deriving DecidableEq, Repr

/-- A 2-D point (the `{x, y}` position records of the source). -/
structure Point where
  x : ℚ
  y : ℚ
deriving DecidableEq, Repr

/-- `QuadTree.contains`: `bounds` is fully inside `self` (closed comparisons). -/
def boundsContains (self bounds : Bounds) : Bool :=
  bounds.x ≥ self.x ∧
  bounds.y ≥ self.y ∧
  bounds.x + bounds.width ≤ self.x + self.width ∧
  bounds.y + bounds.height ≤ self.y + self.height

/-- `QuadTree.intersects(bounds1, bounds2)`: negation of strict separation,
so edge-touching rectangles count as intersecting. -/
def boundsIntersects (b1 b2 : Bounds) : Bool :=
  ¬ (b1.x + b1.width < b2.x ∨
     b1.x > b2.x + b2.width ∨
     b1.y + b1.height < b2.y ∨
     b1.y > b2.y + b2.height)

/-- `QuadTreeItem`: an id together with the bounds it was indexed under. -/
structure QTItem where
  id : String
  bounds : Bounds
deriving DecidableEq, Repr

/-- `QuadTree.MAX_ITEMS`. -/
def maxItems : Nat := 4

/-- `QuadTree.MAX_DEPTH`. -/
def maxDepth : Nat := 8

/-- The recursive `QuadTree` node: `bounds`, stored `items`, children and
`depth`.  In the source the children array `nodes` is either empty or holds
exactly the four quadrants (only `subdivide` ever assigns it, `clear` resets
it to empty), so the embedding uses two constructors: `flat` for
`nodes.length === 0` and `split` for the four children in source order
(top-left, top-right, bottom-left, bottom-right). -/
inductive QuadTree where
  | flat (bounds : Bounds) (items : List QTItem) (depth : Nat)
  | split (bounds : Bounds) (items : List QTItem) (depth : Nat)
          (tl tr bl br : QuadTree)
deriving DecidableEq, Repr

namespace QuadTree

def boundsOf : QuadTree → Bounds
  | .flat b _ _ => b
  | .split b _ _ _ _ _ _ => b

def itemsOf : QuadTree → List QTItem
  | .flat _ its _ => its
  | .split _ its _ _ _ _ _ => its

def depthOf : QuadTree → Nat
  | .flat _ _ d => d
  | .split _ _ d _ _ _ _ => d

/-- `new QuadTree(bounds, depth)`. -/
def make (b : Bounds) (d : Nat) : QuadTree := .flat b [] d

/-- `subdivide`: the four equal quadrants, in source order, each one level
deeper than the parent. -/
def quadrants (b : Bounds) (d : Nat) :
    QuadTree × QuadTree × QuadTree × QuadTree :=
  let hw := b.width / 2
  let hh := b.height / 2
  ( make ⟨b.x, b.y, hw, hh⟩ (d + 1),
    make ⟨b.x + hw, b.y, hw, hh⟩ (d + 1),
    make ⟨b.x, b.y + hh, hw, hh⟩ (d + 1),
    make ⟨b.x + hw, b.y + hh, hw, hh⟩ (d + 1) )

/-- All items stored in a tree: this node's list first, then the children's
in order (the traversal order of the source). -/
def allItems : QuadTree → List QTItem
  | .flat _ its _ => its
  | .split _ its _ c0 c1 c2 c3 =>
    its ++ allItems c0 ++ allItems c1 ++ allItems c2 ++ allItems c3

/-- The multiset of items stored in a tree. -/
def itemsM (t : QuadTree) : Multiset QTItem := (t.allItems : Multiset QTItem)

/-- The `for (const node of this.nodes)` loop of `insert`: try each child in
order with `ins`, keep every updated child, stop at the first acceptance. -/
def tryFour (ins : QuadTree → QuadTree × Bool) (q0 q1 q2 q3 : QuadTree) :
    (QuadTree × QuadTree × QuadTree × QuadTree) × Bool :=
  let r0 := ins q0
  if r0.2 then ((r0.1, q1, q2, q3), true) else
  let r1 := ins q1
  if r1.2 then ((r0.1, r1.1, q2, q3), true) else
  let r2 := ins q2
  if r2.2 then ((r0.1, r1.1, r2.1, q3), true) else
  let r3 := ins q3
  ((r0.1, r1.1, r2.1, r3.1), r3.2)

/-- `QuadTree.insert`, returning the updated tree and the boolean result.
The `gas` parameter makes the source recursion — which descends one depth
level per call and creates fresh children on the way down, cut off by the
`depth < MAX_DEPTH` guard — structurally terminating.  `insert` below
supplies more gas than any tree built through this API can consume, and the
item-accounting lemmas proved later hold for every gas value. -/
def insertGas : Nat → QuadTree → QTItem → QuadTree × Bool
  | 0, t, _ => (t, false)
  | gas + 1, .flat b its d, it =>
    if ¬ boundsContains b it.bounds then (.flat b its d, false)
    else if its.length < maxItems ∧ d = 0 then (.flat b (its ++ [it]) d, true)
    else if d < maxDepth then
      let q := quadrants b d
      let r := tryFour (fun c => insertGas gas c it) q.1 q.2.1 q.2.2.1 q.2.2.2
      if r.2 then (.split b its d r.1.1 r.1.2.1 r.1.2.2.1 r.1.2.2.2, true)
      else (.split b (its ++ [it]) d r.1.1 r.1.2.1 r.1.2.2.1 r.1.2.2.2, true)
    else (.flat b (its ++ [it]) d, true)
  | gas + 1, .split b its d c0 c1 c2 c3, it =>
    if ¬ boundsContains b it.bounds then (.split b its d c0 c1 c2 c3, false)
    else if its.length < maxItems ∧ d = 0 then
      (.split b (its ++ [it]) d c0 c1 c2 c3, true)
    else if d < maxDepth then
      let r := tryFour (fun c => insertGas gas c it) c0 c1 c2 c3
      if r.2 then (.split b its d r.1.1 r.1.2.1 r.1.2.2.1 r.1.2.2.2, true)
      else (.split b (its ++ [it]) d r.1.1 r.1.2.1 r.1.2.2.1 r.1.2.2.2, true)
    else (.split b (its ++ [it]) d c0 c1 c2 c3, true)

/-- `QuadTree.insert`.  Each level of descent consumes one unit of gas and
descent stops at `MAX_DEPTH`, so this bound is never exhausted on trees
built through this API. -/
def insert (t : QuadTree) (it : QTItem) : QuadTree × Bool :=
  insertGas (maxDepth + 2) t it

/-- `QuadTree.query`: prune if the region misses this node's bounds,
otherwise collect intersecting items here and recurse into the children. -/
def query : QuadTree → Bounds → List QTItem
  | .flat b its _, r =>
    if ¬ boundsIntersects r b then []
    else its.filter fun it => boundsIntersects it.bounds r
  | .split b its _ c0 c1 c2 c3, r =>
    if ¬ boundsIntersects r b then []
    else (its.filter fun it => boundsIntersects it.bounds r)
      ++ query c0 r ++ query c1 r ++ query c2 r ++ query c3 r

/-- The `findIndex` / `splice` pair of `remove`: drop the first item with
the given id. -/
def removeFirstById : List QTItem → String → List QTItem
  | [], _ => []
  | it :: its, tid =>
    if it.id = tid then its else it :: removeFirstById its tid

/-- `QuadTree.remove`: delete the first item with this id from this node's
list, else recurse into the children in order, stopping at first success. -/
def remove : QuadTree → String → QuadTree × Bool
  | .flat b its d, tid =>
    if its.any fun it => it.id = tid then
      (.flat b (removeFirstById its tid) d, true)
    else (.flat b its d, false)
  | .split b its d c0 c1 c2 c3, tid =>
    if its.any fun it => it.id = tid then
      (.split b (removeFirstById its tid) d c0 c1 c2 c3, true)
    else
      let r0 := remove c0 tid
      if r0.2 then (.split b its d r0.1 c1 c2 c3, true) else
      let r1 := remove c1 tid
      if r1.2 then (.split b its d r0.1 r1.1 c2 c3, true) else
      let r2 := remove c2 tid
      if r2.2 then (.split b its d r0.1 r1.1 r2.1 c3, true) else
      let r3 := remove c3 tid
      (.split b its d r0.1 r1.1 r2.1 r3.1, r3.2)

/-- `QuadTree.clear`: drop items and children, keep bounds and depth. -/
def clear : QuadTree → QuadTree
  | .flat b _ d => .flat b [] d
  | .split b _ d _ _ _ _ => .flat b [] d

/-- Structural well-formedness maintained by the API: the rectangle has
nonnegative extent, every stored item and every child rectangle is
contained in this node's bounds, and the children are themselves well
formed. -/
def wf : QuadTree → Bool
  | .flat b its _ =>
    (0 ≤ b.width ∧ 0 ≤ b.height) ∧
    its.all fun it => boundsContains b it.bounds
  | .split b its _ c0 c1 c2 c3 =>
    (0 ≤ b.width ∧ 0 ≤ b.height) ∧
    (its.all fun it => boundsContains b it.bounds) ∧
    (boundsContains b c0.boundsOf ∧ wf c0) ∧
    (boundsContains b c1.boundsOf ∧ wf c1) ∧
    (boundsContains b c2.boundsOf ∧ wf c2) ∧
    (boundsContains b c3.boundsOf ∧ wf c3)

end QuadTree

/-! ## Association lists: the JS `Map<string, T>`

Insertion-ordered; `set` replaces in place or appends, `delete` removes the
binding, `values()` lists the values in order. -/

def alGet {α : Type} (m : List (String × α)) (k : String) : Option α :=
  (m.find? fun kv => kv.1 = k).map Prod.snd

def alSet {α : Type} : List (String × α) → String → α → List (String × α)
  | [], k, v => [(k, v)]
  | (k', v') :: rest, k, v =>
    if k' = k then (k, v) :: rest else (k', v') :: alSet rest k v

def alDelete {α : Type} : List (String × α) → String → List (String × α)
  | [], _ => []
  | (k', v') :: rest, k =>
    if k' = k then rest else (k', v') :: alDelete rest k

def alValues {α : Type} (m : List (String × α)) : List α := m.map Prod.snd

def alKeys {α : Type} (m : List (String × α)) : List String := m.map Prod.fst

/-! ## Port (`Port.ts`) -/

/-- The `'input' | 'output'` string union of `PortData.type`. -/
inductive PortKind where
  | input
  | output
deriving DecidableEq, Repr

/-- `PortData`.  The `value` payload is opaque to the core; it is modelled
as an optional string. -/
structure PortData where
  id : String
  name : String
  type : PortKind
  nodeId : String
  value : Option String
deriving DecidableEq, Repr

/-- The `Port` class.  `offsetX` defaults by kind in the constructor
(input ports sit on the node's left, output ports on its right). -/
structure Port where
  id : String
  name : String
  type : PortKind
  nodeId : String
  value : Option String
  offsetX : ℚ
  offsetY : ℚ
deriving DecidableEq, Repr

/-- The `Port` constructor (also `Port.fromJSON`). -/
def Port.make (data : PortData) : Port :=
  { id := data.id, name := data.name, type := data.type,
    nodeId := data.nodeId, value := data.value,
    offsetX := if data.type = .input then -10 else 10, offsetY := 0 }

/-- `Port.toJSON`: the offsets are not serialized. -/
def Port.toJSONData (p : Port) : PortData :=
  { id := p.id, name := p.name, type := p.type, nodeId := p.nodeId,
    value := p.value }

/-- `Port.canConnect`: kinds must differ. -/
def Port.canConnect (p targetPort : Port) : Bool := p.type ≠ targetPort.type

/-! ## Node (`Node.ts`) -/

/-- `NodeData`.  The source marks `inputs`/`outputs` optional and reads
them through `(portDataList || [])`; an absent list is the empty list. -/
structure NodeData where
  id : String
  name : String
  type : String
  x : ℚ
  y : ℚ
  inputs : List PortData
  outputs : List PortData
deriving DecidableEq, Repr

/-- The `Node` class.  Its `Cache<any>` uses exactly the keys `position`,
`bounds` and `ports`, modelled as the three `Option`-valued cache fields. -/
structure Node where
  id : String
  name : String
  type : String
  x : ℚ
  y : ℚ
  width : ℚ
  height : ℚ
  inputs : List (String × Port)
  outputs : List (String × Port)
  cachePosition : Option Point
  cacheBounds : Option Bounds
  cachePorts : Option (List Port × List Port)
deriving DecidableEq, Repr

/-- `Node.createPorts`: each entry is rebuilt by `Port.fromJSON` with
`nodeId` overridden by the owning node's id, then `set` into the map.
(The `port:added` emissions happen inside the constructor, before any
listener can be attached, so they are lost.) -/
def Node.createPorts (nodeId : String) (pds : List PortData) :
    List (String × Port) :=
  pds.foldl (fun m pd =>
    let port := Port.make { pd with nodeId := nodeId }
    alSet m port.id port) []

/-- The `Node` constructor (also `Node.fromJSON`).  `data.x || 0` is the
identity on rationals except that it maps 0 to 0, so it is plain `data.x`
here; width and height default to 100 × 60. -/
def Node.make (data : NodeData) : Node :=
  { id := data.id, name := data.name, type := data.type,
    x := data.x, y := data.y, width := 100, height := 60,
    inputs := Node.createPorts data.id data.inputs,
    outputs := Node.createPorts data.id data.outputs,
    cachePosition := none, cacheBounds := none, cachePorts := none }

/-- `Node.getPosition`: memoized under the `position` cache key. -/
def Node.getPosition (n : Node) : Node × Point :=
  match n.cachePosition with
  | some p => (n, p)
  | none =>
    let p : Point := ⟨n.x, n.y⟩
    ({ n with cachePosition := some p }, p)

/-- The rectangle `getBounds` computes on a cache miss: centered at the
position, with the node's size. -/
def Node.boundsRect (n : Node) : Bounds :=
  ⟨n.x - n.width / 2, n.y - n.height / 2, n.width, n.height⟩

/-- `Node.getBounds`: the rectangle centered at the position, memoized
under the `bounds` cache key. -/
def Node.getBounds (n : Node) : Node × Bounds :=
  match n.cacheBounds with
  | some b => (n, b)
  | none =>
    let b := Node.boundsRect n
    ({ n with cacheBounds := some b }, b)

/-- The state change of `Node.setPosition` (between its `moving` and
`moved` emissions): mutate the coordinates and clear the `position` and
`bounds` cache keys. -/
def Node.setPositionState (n : Node) (x y : ℚ) : Node :=
  { n with x := x, y := y, cachePosition := none, cacheBounds := none }

/-- The value produced for the `ports` cache key by `getInputs` /
`getOutputs` (cache hit returns the stored pair, miss computes it).
The cache write-back of a pure read is omitted where the updated object is
discarded by the caller; `useCache` stores exactly the value it returns,
so subsequent reads are unchanged. -/
def Node.portsPairData (n : Node) : List Port × List Port :=
  match n.cachePorts with
  | some pp => pp
  | none => (alValues n.inputs, alValues n.outputs)

/-- `Node.getInput`. -/
def Node.getInput (n : Node) (id : String) : Option Port := alGet n.inputs id

/-- `Node.getOutput`. -/
def Node.getOutput (n : Node) (id : String) : Option Port := alGet n.outputs id

/-- `Node.toJSON`: current position plus the (possibly memoized) port
lists, serialized by `Port.toJSON`.  Size is not serialized. -/
def Node.toJSONData (n : Node) : NodeData :=
  { id := n.id, name := n.name, type := n.type, x := n.x, y := n.y,
    inputs := (Node.portsPairData n).1.map Port.toJSONData,
    outputs := (Node.portsPairData n).2.map Port.toJSONData }

/-- `Port.getPosition(node)`: the owning node's (memoized) position plus
the port's offset.  Reading the node position can populate the node's
`position` cache entry, so the updated node is returned. -/
def Port.getPosition (p : Port) (n : Node) : Node × Point :=
  let r := Node.getPosition n
  (r.1, ⟨r.2.x + p.offsetX, r.2.y + p.offsetY⟩)

/-! ## Edge (`Edge.ts`) -/

structure EdgeData where
  id : String
  sourcePortId : String
  targetPortId : String
deriving DecidableEq, Repr

/-- The `Edge` class.  In the source `sourceNode` / `targetNode` are object
references obtained from the node map the Graph passed to the constructor
(its own `this.nodes`); they are modelled as the node ids, resolved through
the owning graph's node map at read time.  This matches the aliasing of the
source for every edge reachable through Graph operations, because the
stored node object and the edge's reference are the same object as long as
the node stays in the map, and the Graph removes all incident edges before
removing a node.  The `Cache<any>` uses exactly the keys `bounds`,
`sourcePosition` and `targetPosition`. -/
structure Edge where
  id : String
  sourcePort : Port
  targetPort : Port
  sourceNodeId : String
  targetNodeId : String
  cacheBounds : Option Bounds
  cacheSourcePosition : Option Point
  cacheTargetPosition : Option Point
deriving DecidableEq, Repr

/-- The `Edge` constructor: resolve both ports, validate kinds, resolve
both owner nodes; any failure throws (modelled as `Except.error` with the
source's message).  On success the constructor emits
`connected(sourcePort, targetPort)` synchronously — before any listener
has been attached to the new edge, so the emission reaches no one. -/
def Edge.make (data : EdgeData) (portMap : List (String × Port))
    (nodeMap : List (String × Node)) : Except String Edge :=
  match alGet portMap data.sourcePortId, alGet portMap data.targetPortId with
  | some sourcePort, some targetPort =>
    if sourcePort.type = targetPort.type then
      .error "Cannot connect ports of the same type"
    else if sourcePort.type = .input then
      .error "Source port cannot be an input port"
    else
      match alGet nodeMap sourcePort.nodeId, alGet nodeMap targetPort.nodeId with
      | some _, some _ =>
        .ok { id := data.id, sourcePort := sourcePort, targetPort := targetPort,
              sourceNodeId := sourcePort.nodeId,
              targetNodeId := targetPort.nodeId,
              cacheBounds := none, cacheSourcePosition := none,
              cacheTargetPosition := none }
      | _, _ => .error "Node not found"
  | _, _ => .error "Port not found"

/-- `Edge.toJSON`. -/
def Edge.toJSONData (e : Edge) : EdgeData :=
  { id := e.id, sourcePortId := e.sourcePort.id,
    targetPortId := e.targetPort.id }

/-- `Edge.clearCache`: `cache.clear()` with no key drops all entries. -/
def Edge.clearCache (e : Edge) : Edge :=
  { e with
    cacheBounds := none
    cacheSourcePosition := none
    cacheTargetPosition := none }

/-- `Edge.getSourcePosition`, memoized under `sourcePosition`; dereferences
the source node (`none` if the node id is dangling, which cannot happen for
edges reachable through Graph operations).  Returns the updated node map
(the node's own `position` cache entry may be populated by the read). -/
def Edge.getSourcePositionM (nodes : List (String × Node)) (e : Edge) :
    Option (List (String × Node) × Edge × Point) :=
  match e.cacheSourcePosition with
  | some p => some (nodes, e, p)
  | none =>
    match alGet nodes e.sourceNodeId with
    | none => none
    | some n =>
      let r := Port.getPosition e.sourcePort n
      some (alSet nodes e.sourceNodeId r.1,
        { e with cacheSourcePosition := some r.2 }, r.2)

/-- `Edge.getTargetPosition`, memoized under `targetPosition`. -/
def Edge.getTargetPositionM (nodes : List (String × Node)) (e : Edge) :
    Option (List (String × Node) × Edge × Point) :=
  match e.cacheTargetPosition with
  | some p => some (nodes, e, p)
  | none =>
    match alGet nodes e.targetNodeId with
    | none => none
    | some n =>
      let r := Port.getPosition e.targetPort n
      some (alSet nodes e.targetNodeId r.1,
        { e with cacheTargetPosition := some r.2 }, r.2)

/-- `Edge.getBounds`: the axis-aligned bounding rectangle of the two
ports' absolute positions, memoized under `bounds`. -/
def Edge.getBoundsM (nodes : List (String × Node)) (e : Edge) :
    Option (List (String × Node) × Edge × Bounds) :=
  match e.cacheBounds with
  | some b => some (nodes, e, b)
  | none =>
    (Edge.getSourcePositionM nodes e).bind fun r1 =>
    (Edge.getTargetPositionM r1.1 r1.2.1).bind fun r2 =>
    let sp := r1.2.2
    let tp := r2.2.2
    let b : Bounds := ⟨min sp.x tp.x, min sp.y tp.y,
      abs (tp.x - sp.x), abs (tp.y - sp.y)⟩
    some (r2.1, { r2.2.1 with cacheBounds := some b }, b)

/-- Normalization `toJSON ∘ new Node` applies to serialized node data:
every port's `nodeId` is overridden by the owning node's id. -/
def normNodeData (nd : NodeData) : NodeData :=
  { nd with
    inputs := nd.inputs.map fun pd => { pd with nodeId := nd.id }
    outputs := nd.outputs.map fun pd => { pd with nodeId := nd.id } }

/-- The port object reconstruction performs for a serialized port of the
node with id `nid`. -/
def rePortD (nid : String) (pd : PortData) : Port :=
  Port.make { pd with nodeId := nid }

/-- The node object `addNode` actually stores for an argument node: a fresh
reconstruction from its snapshot, with the `bounds` cache populated by the
indexing read. -/
def reNode (n : Node) : Node :=
  (Node.getBounds (Node.make (Node.toJSONData n))).1

/-- All ports of a node as `getInputs() ++ getOutputs()` observe them. -/
def nodePorts (n : Node) : List Port :=
  (Node.portsPairData n).1 ++ (Node.portsPairData n).2

/-- An edge's connectivity: the pair of its port ids. -/
def connOf (e : Edge) : String × String :=
  (e.sourcePort.id, e.targetPort.id)

/-- The deterministic id `addEdge` synthesizes for a port pair. -/
def canonPairId (pr : Port × Port) : String :=
  "edge-" ++ pr.1.id ++ "-" ++ pr.2.id

/-- The deterministic id `addEdge` synthesizes when re-adding a serialized
edge. -/
def canonEdgeDataId (ed : EdgeData) : String :=
  "edge-" ++ ed.sourcePortId ++ "-" ++ ed.targetPortId

/-- The serialization-visible part of a node map: each entry's key and its
value's `toJSON` snapshot (cache state erased). -/
def sigMap (m : List (String × Node)) : List (String × NodeData) :=
  m.map fun kv => (kv.1, Node.toJSONData kv.2)

/-- The conditions under which `addEdge(s, t)` succeeds against a node map
with key list `N`. -/
def portOK (N : List String) (pr : Port × Port) : Prop :=
  pr.1.type = .output ∧ pr.2.type = .input ∧ pr.1.id ≠ pr.2.id ∧
  pr.1.nodeId ∈ N ∧ pr.2.nodeId ∈ N

/-- The error message of a failed computation, `none` on success. -/
def exceptError {α : Type} : Except String α → Option String
  | .error msg => some msg
  | .ok _ => none

/-! ## Graph (the aggregate) -/

/-- The graph-level events re-broadcast to external listeners.  The source
payloads are the entities themselves; here they are identified by their
ids (and the coordinates for move events). -/
inductive GEvent where
  | nodeAdded (nodeId : String)
  | nodeRemoved (nodeId : String)
  | edgeAdded (edgeId : String)
  | edgeRemoved (edgeId : String)
  | portConnected (edgeId : String)
  | portDisconnected (edgeId : String)
  | nodeMoving (nodeId : String) (x y : ℚ)
  | nodeMoved (nodeId : String) (x y : ℚ)
  | portAdded (portId : String)
  | portRemoved (portId : String)
deriving DecidableEq, Repr

/-- `GraphData`: the serialized graph document. -/
structure GraphData where
  id : String
  name : String
  nodes : List NodeData
  edges : List EdgeData
deriving DecidableEq, Repr

/-- The `Graph` class state. -/
structure Graph where
  id : String
  name : String
  nodes : List (String × Node)
  edges : List (String × Edge)
  nodeQuadTree : QuadTree
  edgeQuadTree : QuadTree
deriving Repr

/-- The fixed world rectangle both quadtrees are built over. -/
def worldBounds : Bounds := ⟨-10000, -10000, 20000, 20000⟩

namespace Graph

def getNode (g : Graph) (nodeId : String) : Option Node := alGet g.nodes nodeId

def getEdge (g : Graph) (edgeId : String) : Option Edge := alGet g.edges edgeId

def getNodes (g : Graph) : List Node := alValues g.nodes

def getEdges (g : Graph) : List Edge := alValues g.edges

/-- `getPort`: scan the nodes in map order, inputs before outputs. -/
def getPort (g : Graph) (id : String) : Option Port :=
  (alValues g.nodes).findSome? fun n =>
    match Node.getInput n id with
    | some p => some p
    | none => Node.getOutput n id

/-- `getNodesInBounds`: query the node index, then resolve ids back to live
nodes, silently dropping ids that no longer resolve. -/
def getNodesInBounds (g : Graph) (bounds : Bounds) : List Node :=
  (g.nodeQuadTree.query bounds).filterMap fun it => alGet g.nodes it.id

/-- `getEdgesInBounds`. -/
def getEdgesInBounds (g : Graph) (bounds : Bounds) : List Edge :=
  (g.edgeQuadTree.query bounds).filterMap fun it => alGet g.edges it.id

/-- `createNode`: construct, store, index under the node's current bounds
(a failed index insert is ignored), emit `node:added`, wire listeners.
The stored object is the one whose `getBounds` read populated its cache. -/
def createNode (g : Graph) (data : NodeData) : Graph × Node × List GEvent :=
  let node := Node.make data
  let r := Node.getBounds node
  let g' := { g with
    nodes := alSet g.nodes node.id r.1
    nodeQuadTree := (QuadTree.insert g.nodeQuadTree ⟨node.id, r.2⟩).1 }
  (g', r.1, [.nodeAdded node.id])

/-- `addNode`: `createNode(node.toJSON())` — the graph stores a fresh
reconstruction, never the argument object. -/
def addNode (g : Graph) (node : Node) : Graph × List GEvent :=
  let r := createNode g (Node.toJSONData node)
  (r.1, r.2.2)

/-- `addNodes`: the batch loop. -/
def addNodes (g : Graph) (ns : List Node) : Graph × List GEvent :=
  ns.foldl (fun acc n =>
    let r := addNode acc.1 n
    (r.1, acc.2 ++ r.2)) (g, [])

/-- The `moved` listener wired by `setupNodeEventListeners`, together with
`Node.setPosition` itself: emit `moving` (re-broadcast as `node:moving`),
mutate the coordinates, clear the `position` and `bounds` cache keys, emit
`moved` — whose graph listener removes the node's index entry, re-reads the
(freshly recomputed) bounds and reinserts, then re-broadcasts `node:moved`.
Edges and their caches are not touched.  Calling `setPosition` requires a
node reference, so the operation is a no-op when the id is absent. -/
def moveNode (g : Graph) (nodeId : String) (x y : ℚ) : Graph × List GEvent :=
  match alGet g.nodes nodeId with
  | none => (g, [])
  | some n =>
    let n1 := Node.setPositionState n x y
    let g1 := { g with nodes := alSet g.nodes nodeId n1 }
    let t1 := (QuadTree.remove g1.nodeQuadTree nodeId).1
    let r := Node.getBounds n1
    let g2 := { g1 with
      nodes := alSet g1.nodes nodeId r.1
      nodeQuadTree := (QuadTree.insert t1 ⟨nodeId, r.2⟩).1 }
    (g2, [.nodeMoving nodeId x y, .nodeMoved nodeId x y])

/-- `createEdge`: construct (the constructor's `connected` emission reaches
no listener), store, read `getBounds()` (which caches and may touch the
node position caches), index, emit `edge:added`, wire listeners.  A
constructor throw propagates to the caller. -/
def createEdge (g : Graph) (data : EdgeData) (portMap : List (String × Port)) :
    Except String (Graph × Edge × List GEvent) :=
  match Edge.make data portMap g.nodes with
  | .error msg => .error msg
  | .ok edge =>
    let edges1 := alSet g.edges edge.id edge
    match Edge.getBoundsM g.nodes edge with
    | none => .error "Node not found"
    | some r =>
      let g' := { g with
        nodes := r.1
        edges := alSet edges1 edge.id r.2.1
        edgeQuadTree := (QuadTree.insert g.edgeQuadTree ⟨edge.id, r.2.2⟩).1 }
      .ok (g', r.2.1, [.edgeAdded edge.id])

/-- `addEdge`: synthesize the deterministic id `edge-<src>-<tgt>`, build a
two-entry port map, delegate to `createEdge`, and catch any failure as
`undefined` (the `console.warn` is not modelled). -/
def addEdge (g : Graph) (sourcePort targetPort : Port) :
    Graph × Option Edge × List GEvent :=
  match createEdge g
      { id := "edge-" ++ sourcePort.id ++ "-" ++ targetPort.id,
        sourcePortId := sourcePort.id, targetPortId := targetPort.id }
      (alSet (alSet [] sourcePort.id sourcePort) targetPort.id targetPort) with
  | .ok r => (r.1, some r.2.1, r.2.2)
  | .error _ => (g, none, [])

/-- `addEdges`: the batch loop, collecting only the successes. -/
def addEdges (g : Graph) (pairs : List (Port × Port)) :
    Graph × List Edge × List GEvent :=
  pairs.foldl (fun acc pr =>
    let r := addEdge acc.1 pr.1 pr.2
    (r.1, acc.2.1 ++ (r.2.1.map fun e => [e]).getD [],
      acc.2.2 ++ r.2.2)) (g, [], [])

/-- `removeEdge`: evict from the edge index, `disconnect()` (whose wired
listener re-broadcasts `port:disconnected`), delete, emit `edge:removed`.
No-op when absent. -/
def removeEdge (g : Graph) (edgeId : String) : Graph × List GEvent :=
  match alGet g.edges edgeId with
  | none => (g, [])
  | some _ =>
    let g' := { g with
      edgeQuadTree := (QuadTree.remove g.edgeQuadTree edgeId).1
      edges := alDelete g.edges edgeId }
    (g', [.portDisconnected edgeId, .edgeRemoved edgeId])

/-- `removeEdges`: the batch loop. -/
def removeEdges (g : Graph) (edgeIds : List String) : Graph × List GEvent :=
  edgeIds.foldl (fun acc eid =>
    let r := removeEdge acc.1 eid
    (r.1, acc.2 ++ r.2)) (g, [])

/-- `removeNode`: no-op when absent; otherwise evict from the node index,
remove every edge whose source or target port is owned by this node (the
incident list is computed before any removal), delete the node, emit
`node:removed`. -/
def removeNode (g : Graph) (nodeId : String) : Graph × List GEvent :=
  match alGet g.nodes nodeId with
  | none => (g, [])
  | some _ =>
    let g1 := { g with nodeQuadTree := (QuadTree.remove g.nodeQuadTree nodeId).1 }
    let edgesToRemove := (alValues g1.edges).filter fun e =>
      e.sourcePort.nodeId = nodeId ∨ e.targetPort.nodeId = nodeId
    let r := removeEdges g1 (edgesToRemove.map Edge.id)
    let g2 := { r.1 with nodes := alDelete r.1.nodes nodeId }
    (g2, r.2 ++ [.nodeRemoved nodeId])

/-- `removeNodes`: the batch loop. -/
def removeNodes (g : Graph) (nodeIds : List String) : Graph × List GEvent :=
  nodeIds.foldl (fun acc nid =>
    let r := removeNode acc.1 nid
    (r.1, acc.2 ++ r.2)) (g, [])

/-- `toJSON`. -/
def toJSONData (g : Graph) : GraphData :=
  { id := g.id, name := g.name,
    nodes := (alValues g.nodes).map Node.toJSONData,
    edges := (alValues g.edges).map Edge.toJSONData }

/-- `createPortMap`: all ports of all stored nodes, keyed by port id,
nodes in map order, inputs before outputs. -/
def createPortMap (g : Graph) : List (String × Port) :=
  (alValues g.nodes).foldl (fun m n =>
    let pp := Node.portsPairData n
    let m1 := pp.1.foldl (fun m p => alSet m p.id p) m
    pp.2.foldl (fun m p => alSet m p.id p) m1) []

/-- `clear`: empty both quadtrees, then remove all edges, then all nodes,
through the batch loops. -/
def clearAll (g : Graph) : Graph × List GEvent :=
  let g1 := { g with
    nodeQuadTree := g.nodeQuadTree.clear
    edgeQuadTree := g.edgeQuadTree.clear }
  let r1 := removeEdges g1 (alKeys g1.edges)
  let r2 := removeNodes r1.1 (alKeys r1.1.nodes)
  (r2.1, r1.2 ++ r2.2)

/-- The edge pass of `initializeGraph`: each serialized edge is constructed
once (outside any try/catch — a failure aborts the whole initialization)
purely to resolve its source and target ports through the port map. -/
def resolveEdgePorts (pm : List (String × Port)) (nm : List (String × Node)) :
    List EdgeData → Except String (List (Port × Port))
  | [] => .ok []
  | ed :: rest =>
    match Edge.make ed pm nm with
    | .error msg => .error msg
    | .ok edge =>
      match resolveEdgePorts pm nm rest with
      | .error msg => .error msg
      | .ok pairs => .ok ((edge.sourcePort, edge.targetPort) :: pairs)

/-- `initializeGraph`: construct all nodes and `addNodes` them (so each is
re-created from its snapshot), then build the port map from the stored
nodes and `addEdges` the resolved pairs. -/
def initializeGraph (g : Graph) (data : GraphData) :
    Except String (Graph × List GEvent) :=
  let ns := data.nodes.map Node.make
  let r1 := addNodes g ns
  let pm := createPortMap r1.1
  match resolveEdgePorts pm r1.1.nodes data.edges with
  | .error msg => .error msg
  | .ok pairs =>
    let r2 := addEdges r1.1 pairs
    .ok (r2.1, r1.2 ++ r2.2.2)

/-- The `Graph` constructor: empty maps, both quadtrees over the fixed
world rectangle, then `initializeGraph(data)`. -/
def make (data : GraphData) : Except String (Graph × List GEvent) :=
  let g0 : Graph :=
    { id := data.id, name := data.name, nodes := [], edges := [],
      nodeQuadTree := QuadTree.make worldBounds 0,
      edgeQuadTree := QuadTree.make worldBounds 0 }
  initializeGraph g0 data

/-- The instance method `fromJSON`: `clear()`, overwrite id and name, then
`initializeGraph(data)`. -/
def loadJSON (g : Graph) (data : GraphData) :
    Except String (Graph × List GEvent) :=
  let r := clearAll g
  let g1 := { r.1 with id := data.id, name := data.name }
  match initializeGraph g1 data with
  | .error msg => .error msg
  | .ok r2 => .ok (r2.1, r.2 ++ r2.2)

/-- Reading `getEdge(id).getBounds()` against the live graph: the edge's
and the touched nodes' caches are written back into the graph. -/
def edgeGetBounds (g : Graph) (edgeId : String) : Option (Graph × Bounds) :=
  match alGet g.edges edgeId with
  | none => none
  | some e =>
    (Edge.getBoundsM g.nodes e).map fun r =>
      ({ g with nodes := r.1, edges := alSet g.edges edgeId r.2.1 }, r.2.2)

/-- Calling `getEdge(id).clearCache()` against the live graph. -/
def edgeClearCache (g : Graph) (edgeId : String) : Graph :=
  match alGet g.edges edgeId with
  | none => g
  | some e => { g with edges := alSet g.edges edgeId (Edge.clearCache e) }

end Graph

/-- The consistency of the node map with the node quadtree that the Graph
maintains: the tree is well formed, its stored items are exactly one entry
per stored node carrying that node's current rectangle, and the map keys
are distinct (as they are for a JS `Map`). -/
def Graph.nodeInv (g : Graph) : Prop :=
  QuadTree.wf g.nodeQuadTree = true ∧
  QuadTree.itemsM g.nodeQuadTree =
    ((g.nodes.map fun kv => QTItem.mk kv.1 (Node.boundsRect kv.2)) :
      Multiset QTItem) ∧
  (alKeys g.nodes).Nodup

instance (g : Graph) : Decidable (Graph.nodeInv g) :=
  inferInstanceAs (Decidable (QuadTree.wf g.nodeQuadTree = true ∧
    QuadTree.itemsM g.nodeQuadTree =
      ((g.nodes.map fun kv => QTItem.mk kv.1 (Node.boundsRect kv.2)) :
        Multiset QTItem) ∧
    (alKeys g.nodes).Nodup))

/-! ## Concrete fixtures used by claim theorems and witnesses -/

/-- Fallback value, never reached by the fixtures below. -/
def emptyGraph : Graph :=
  { id := "", name := "", nodes := [], edges := [],
    nodeQuadTree := QuadTree.make worldBounds 0,
    edgeQuadTree := QuadTree.make worldBounds 0 }

def fixPortO1 : PortData :=
  { id := "o1", name := "O1", type := .output, nodeId := "n1", value := none }

def fixPortI1 : PortData :=
  { id := "i1", name := "I1", type := .input, nodeId := "n2", value := none }

def fixNode1 : NodeData :=
  { id := "n1", name := "N1", type := "t", x := 0, y := 0,
    inputs := [], outputs := [fixPortO1] }

def fixNode2 : NodeData :=
  { id := "n2", name := "N2", type := "t", x := 100, y := 0,
    inputs := [fixPortI1], outputs := [] }

def fixGraphData : GraphData :=
  { id := "g1", name := "G", nodes := [fixNode1, fixNode2], edges := [] }

/-- The two-node fixture graph (construction succeeds; the fallback is
unreachable). -/
def fixGraph : Graph :=
  match Graph.make fixGraphData with
  | .ok r => r.1
  | .error _ => emptyGraph

/-- The output port `o1` as stored in the fixture graph. -/
def fixP_o1 : Port := (Graph.getPort fixGraph "o1").getD (Port.make fixPortO1)

/-- The input port `i1` as stored in the fixture graph. -/
def fixP_i1 : Port := (Graph.getPort fixGraph "i1").getD (Port.make fixPortI1)

/-- The fixture graph after `addEdge(o1, i1)`, with the created edge and
the events of the call. -/
def fixAddEdge : Graph × Option Edge × List GEvent :=
  Graph.addEdge fixGraph fixP_o1 fixP_i1

def fixGraphE : Graph := fixAddEdge.1

/-- Fallback edge value for fixture lookups (never reached). -/
def fixFallbackEdge : Edge :=
  { id := "", sourcePort := Port.make fixPortO1,
    targetPort := Port.make fixPortI1, sourceNodeId := "",
    targetNodeId := "", cacheBounds := none,
    cacheSourcePosition := none, cacheTargetPosition := none }

/-- The edge stored by the fixture `addEdge` call. -/
def fixEdgeStored : Edge :=
  (Graph.getEdge fixGraphE "edge-o1-i1").getD fixFallbackEdge

/-- A "rogue" output port object claiming to belong to `n1` without being
attached to any stored node.  `addEdge` accepts it, because the Edge
constructor only looks the ports up in the two-entry map `addEdge` builds
around the arguments. -/
def fixPortPX : Port := Port.make ⟨"px", "PX", .output, "n1", none⟩

/-- The fixture graph holding an edge whose source port is not attached to
any stored node. -/
def fixGraphRogue : Graph := (Graph.addEdge fixGraph fixPortPX fixP_i1).1

/-- A node placed outside the quadtrees' world rectangle. -/
def farNodeData : NodeData :=
  { id := "n1", name := "N1", type := "t", x := 20000, y := 0,
    inputs := [], outputs := [] }

def farGraphData : GraphData :=
  { id := "g2", name := "G", nodes := [farNodeData], edges := [] }

def farGraph : Graph :=
  match Graph.make farGraphData with
  | .ok r => r.1
  | .error _ => emptyGraph

/-! ## Rectangle arithmetic lemmas -/

theorem boundsContains_iff {a b : Bounds} :
    boundsContains a b = true ↔
      (a.x ≤ b.x ∧ a.y ≤ b.y ∧
       b.x + b.width ≤ a.x + a.width ∧ b.y + b.height ≤ a.y + a.height) := by
  simp [boundsContains, ge_iff_le]

theorem boundsIntersects_iff {a b : Bounds} :
    boundsIntersects a b = true ↔
      (b.x ≤ a.x + a.width ∧ a.x ≤ b.x + b.width ∧
       b.y ≤ a.y + a.height ∧ a.y ≤ b.y + b.height) := by
  simp only [boundsIntersects, decide_eq_true_eq, not_or, not_lt, gt_iff_lt]

theorem boundsIntersects_symm (a b : Bounds) :
    boundsIntersects a b = boundsIntersects b a := by
  have h : (boundsIntersects a b = true) ↔ (boundsIntersects b a = true) := by
    rw [boundsIntersects_iff, boundsIntersects_iff]
    tauto
  rcases Bool.eq_false_or_eq_true (boundsIntersects a b) with h1 | h1 <;>
    rcases Bool.eq_false_or_eq_true (boundsIntersects b a) with h2 | h2 <;>
    simp_all

theorem boundsContains_trans {a b c : Bounds}
    (h1 : boundsContains a b = true) (h2 : boundsContains b c = true) :
    boundsContains a c = true := by
  rw [boundsContains_iff] at *
  obtain ⟨_, _, _, _⟩ := h1
  obtain ⟨_, _, _, _⟩ := h2
  refine ⟨by linarith, by linarith, by linarith, by linarith⟩

theorem boundsIntersects_of_contains {a b r : Bounds}
    (h1 : boundsContains a b = true) (h2 : boundsIntersects b r = true) :
    boundsIntersects a r = true := by
  rw [boundsContains_iff] at h1
  rw [boundsIntersects_iff] at *
  obtain ⟨_, _, _, _⟩ := h1
  obtain ⟨_, _, _, _⟩ := h2
  refine ⟨by linarith, by linarith, by linarith, by linarith⟩

namespace QuadTree

/-! ## QuadTree lemmas -/

theorem boundsOf_make (b : Bounds) (d : Nat) : (make b d).boundsOf = b := rfl

theorem allItems_make (b : Bounds) (d : Nat) : (make b d).allItems = [] := rfl

/-- Each quadrant produced by `subdivide` is contained in the parent
rectangle (given nonnegative extent). -/
theorem quadrants_contained {b : Bounds} (hw : 0 ≤ b.width) (hh : 0 ≤ b.height)
    (d : Nat) :
    boundsContains b (quadrants b d).1.boundsOf = true ∧
    boundsContains b (quadrants b d).2.1.boundsOf = true ∧
    boundsContains b (quadrants b d).2.2.1.boundsOf = true ∧
    boundsContains b (quadrants b d).2.2.2.boundsOf = true := by
  refine ⟨?_, ?_, ?_, ?_⟩ <;>
  · simp only [quadrants, make, boundsOf, boundsContains_iff]
    refine ⟨?_, ?_, ?_, ?_⟩ <;> dsimp only <;> linarith

theorem wf_quadrants {b : Bounds} (hw : 0 ≤ b.width) (hh : 0 ≤ b.height)
    (d : Nat) :
    wf (quadrants b d).1 = true ∧ wf (quadrants b d).2.1 = true ∧
    wf (quadrants b d).2.2.1 = true ∧ wf (quadrants b d).2.2.2 = true := by
  refine ⟨?_, ?_, ?_, ?_⟩ <;>
  · simp only [quadrants, make, wf, List.all_nil, Bool.and_true,
      decide_eq_true_eq]
    refine ⟨⟨?_, ?_⟩, ?_⟩ <;> first | trivial | (dsimp only; linarith)

/-- `insert` never changes the rectangle of the root node. -/
theorem insertGas_boundsOf (gas : Nat) (t : QuadTree) (it : QTItem) :
    (insertGas gas t it).1.boundsOf = t.boundsOf := by
  match gas, t with
  | 0, t => rfl
  | gas + 1, .flat b its d =>
    simp only [insertGas]
    repeat' split
    all_goals rfl
  | gas + 1, .split b its d c0 c1 c2 c3 =>
    simp only [insertGas]
    repeat' split
    all_goals rfl

/-- `insert` never changes the recorded depth of the root node. -/
theorem insertGas_depthOf (gas : Nat) (t : QuadTree) (it : QTItem) :
    (insertGas gas t it).1.depthOf = t.depthOf := by
  match gas, t with
  | 0, t => rfl
  | gas + 1, .flat b its d =>
    simp only [insertGas]
    repeat' split
    all_goals rfl
  | gas + 1, .split b its d c0 c1 c2 c3 =>
    simp only [insertGas]
    repeat' split
    all_goals rfl

/-- `insert` succeeds exactly when the item is contained in the root
rectangle (the claim C8 boolean contract), for any positive gas. -/
theorem insertGas_snd (gas : Nat) (t : QuadTree) (it : QTItem) :
    (insertGas (gas + 1) t it).2 = boundsContains t.boundsOf it.bounds := by
  match t with
  | .flat b its d =>
    simp only [insertGas, boundsOf]
    repeat' split
    all_goals simp_all
  | .split b its d c0 c1 c2 c3 =>
    simp only [insertGas, boundsOf]
    repeat' split
    all_goals simp_all

/-- A failed `insert` leaves the tree unchanged. -/
theorem insertGas_fail (gas : Nat) (t : QuadTree) (it : QTItem)
    (h : (insertGas gas t it).2 = false) : (insertGas gas t it).1 = t := by
  match gas, t with
  | 0, t => rfl
  | gas + 1, .flat b its d =>
    have hc := insertGas_snd gas (.flat b its d) it
    rw [h] at hc
    simp only [insertGas, boundsOf] at hc ⊢
    simp [← hc]
  | gas + 1, .split b its d c0 c1 c2 c3 =>
    have hc := insertGas_snd gas (.split b its d c0 c1 c2 c3) it
    rw [h] at hc
    simp only [insertGas, boundsOf] at hc ⊢
    simp [← hc]

/-! ### Item accounting, as multisets -/

theorem itemsM_flat (b : Bounds) (its : List QTItem) (d : Nat) :
    itemsM (.flat b its d) = (its : Multiset QTItem) := rfl

theorem itemsM_split (b : Bounds) (its : List QTItem) (d : Nat)
    (c0 c1 c2 c3 : QuadTree) :
    itemsM (.split b its d c0 c1 c2 c3) =
      (its : Multiset QTItem) + itemsM c0 + itemsM c1 + itemsM c2 + itemsM c3 := by
  simp only [itemsM, allItems, Multiset.coe_add]

theorem itemsM_make (b : Bounds) (d : Nat) : itemsM (make b d) = 0 := rfl

/-- Unfolded membership characterizations of `wf`. -/
theorem wf_flat_iff {b : Bounds} {its : List QTItem} {d : Nat} :
    wf (.flat b its d) = true ↔
      ((0 ≤ b.width ∧ 0 ≤ b.height) ∧
       ∀ it ∈ its, boundsContains b it.bounds = true) := by
  simp [wf, List.all_eq_true]

theorem wf_split_iff {b : Bounds} {its : List QTItem} {d : Nat}
    {c0 c1 c2 c3 : QuadTree} :
    wf (.split b its d c0 c1 c2 c3) = true ↔
      ((0 ≤ b.width ∧ 0 ≤ b.height) ∧
       (∀ it ∈ its, boundsContains b it.bounds = true) ∧
       (boundsContains b c0.boundsOf = true ∧ wf c0 = true) ∧
       (boundsContains b c1.boundsOf = true ∧ wf c1 = true) ∧
       (boundsContains b c2.boundsOf = true ∧ wf c2 = true) ∧
       (boundsContains b c3.boundsOf = true ∧ wf c3 = true)) := by
  simp [wf, List.all_eq_true]

theorem tryFour_case0 {ins : QuadTree → QuadTree × Bool} {q0 q1 q2 q3 : QuadTree}
    (h0 : (ins q0).2 = true) :
    tryFour ins q0 q1 q2 q3 = (((ins q0).1, q1, q2, q3), true) := by
  simp [tryFour, h0]

theorem tryFour_case1 {ins : QuadTree → QuadTree × Bool} {q0 q1 q2 q3 : QuadTree}
    (h0 : (ins q0).2 = false) (h1 : (ins q1).2 = true) :
    tryFour ins q0 q1 q2 q3 = (((ins q0).1, (ins q1).1, q2, q3), true) := by
  simp [tryFour, h0, h1]

theorem tryFour_case2 {ins : QuadTree → QuadTree × Bool} {q0 q1 q2 q3 : QuadTree}
    (h0 : (ins q0).2 = false) (h1 : (ins q1).2 = false)
    (h2 : (ins q2).2 = true) :
    tryFour ins q0 q1 q2 q3 = (((ins q0).1, (ins q1).1, (ins q2).1, q3), true) := by
  simp [tryFour, h0, h1, h2]

theorem tryFour_case3 {ins : QuadTree → QuadTree × Bool} {q0 q1 q2 q3 : QuadTree}
    (h0 : (ins q0).2 = false) (h1 : (ins q1).2 = false)
    (h2 : (ins q2).2 = false) :
    tryFour ins q0 q1 q2 q3 =
      (((ins q0).1, (ins q1).1, (ins q2).1, (ins q3).1), (ins q3).2) := by
  simp [tryFour, h0, h1, h2]

/-- If the child loop reports failure, no child was changed. -/
theorem tryFour_fail {ins : QuadTree → QuadTree × Bool} {q0 q1 q2 q3 : QuadTree}
    (hf : ∀ c, (ins c).2 = false → (ins c).1 = c)
    (h : (tryFour ins q0 q1 q2 q3).2 = false) :
    (tryFour ins q0 q1 q2 q3).1 = (q0, q1, q2, q3) := by
  rcases h0 : (ins q0).2 with _ | _
  · rcases h1 : (ins q1).2 with _ | _
    · rcases h2 : (ins q2).2 with _ | _
      · rw [tryFour_case3 h0 h1 h2] at h ⊢
        rw [hf q0 h0, hf q1 h1, hf q2 h2, hf q3 h]
      · rw [tryFour_case2 h0 h1 h2] at h
        simp at h
    · rw [tryFour_case1 h0 h1] at h
      simp at h
  · rw [tryFour_case0 h0] at h
    simp at h

/-- If the child loop succeeds for an `ins` that adds `it` on success and is
the identity on failure, the children's item multisets together gain
exactly `it`. -/
theorem tryFour_itemsM {ins : QuadTree → QuadTree × Bool} {it : QTItem}
    (hs : ∀ c, (ins c).2 = true → itemsM (ins c).1 = it ::ₘ itemsM c)
    (hf : ∀ c, (ins c).2 = false → (ins c).1 = c)
    (q0 q1 q2 q3 : QuadTree)
    (h : (tryFour ins q0 q1 q2 q3).2 = true) :
    itemsM (tryFour ins q0 q1 q2 q3).1.1 +
      itemsM (tryFour ins q0 q1 q2 q3).1.2.1 +
      itemsM (tryFour ins q0 q1 q2 q3).1.2.2.1 +
      itemsM (tryFour ins q0 q1 q2 q3).1.2.2.2 =
      it ::ₘ (itemsM q0 + itemsM q1 + itemsM q2 + itemsM q3) := by
  rcases h0 : (ins q0).2 with _ | _
  · rcases h1 : (ins q1).2 with _ | _
    · rcases h2 : (ins q2).2 with _ | _
      · rw [tryFour_case3 h0 h1 h2] at h ⊢
        rw [hf q0 h0, hf q1 h1, hf q2 h2, hs q3 h]
        simp only [← Multiset.singleton_add]
        abel
      · rw [tryFour_case2 h0 h1 h2]
        rw [hf q0 h0, hf q1 h1, hs q2 h2]
        simp only [← Multiset.singleton_add]
        abel
    · rw [tryFour_case1 h0 h1]
      rw [hf q0 h0, hs q1 h1]
      simp only [← Multiset.singleton_add]
      abel
  · rw [tryFour_case0 h0]
    rw [hs q0 h0]
    simp only [← Multiset.singleton_add]
    abel

theorem itemsM_quadrants (b : Bounds) (d : Nat) :
    itemsM (quadrants b d).1 = 0 ∧ itemsM (quadrants b d).2.1 = 0 ∧
    itemsM (quadrants b d).2.2.1 = 0 ∧ itemsM (quadrants b d).2.2.2 = 0 :=
  ⟨rfl, rfl, rfl, rfl⟩

/-- Append-at-end is cons, as multisets. -/
theorem coe_append_singleton (its : List QTItem) (it : QTItem) :
    ((its ++ [it] : List QTItem) : Multiset QTItem) = it ::ₘ (its : Multiset QTItem) := by
  rw [Multiset.cons_coe, Multiset.coe_eq_coe]
  exact List.perm_append_singleton it its

/-- A successful `insert` adds exactly the inserted item to the stored
multiset, for every gas value. -/
theorem insertGas_itemsM :
    ∀ (gas : Nat) (t : QuadTree) (it : QTItem),
      (insertGas gas t it).2 = true →
      itemsM (insertGas gas t it).1 = it ::ₘ itemsM t := by
  intro gas
  induction gas with
  | zero => intro t it h; simp [insertGas] at h
  | succ gas ih =>
    intro t it h
    have hf : ∀ c, (insertGas gas c it).2 = false → (insertGas gas c it).1 = c :=
      fun c hc => insertGas_fail gas c it hc
    have hs : ∀ c, (insertGas gas c it).2 = true →
        itemsM (insertGas gas c it).1 = it ::ₘ itemsM c :=
      fun c hc => ih c it hc
    match t with
    | .flat b its d =>
      by_cases hC : boundsContains b it.bounds = true
      · have hnc : ¬¬(boundsContains b it.bounds = true) := by simp [hC]
        simp only [insertGas, if_neg hnc] at h ⊢
        by_cases hB : its.length < maxItems ∧ d = 0
        · rw [if_pos hB, itemsM_flat, itemsM_flat]
          exact coe_append_singleton its it
        · rw [if_neg hB] at h ⊢
          by_cases hD : d < maxDepth
          · rw [if_pos hD] at h ⊢
            rcases hr : (tryFour (fun c => insertGas gas c it)
                (quadrants b d).1 (quadrants b d).2.1 (quadrants b d).2.2.1
                (quadrants b d).2.2.2).2 with _ | _
            · rw [if_neg (by simp [hr])]
              have h4 := tryFour_fail hf hr
              rw [itemsM_split, itemsM_flat, h4]
              dsimp only
              obtain ⟨e0, e1, e2, e3⟩ := itemsM_quadrants b d
              rw [e0, e1, e2, e3, coe_append_singleton]
              simp
            · rw [if_pos (by simp [hr])]
              have h4 := tryFour_itemsM hs hf (quadrants b d).1
                (quadrants b d).2.1 (quadrants b d).2.2.1 (quadrants b d).2.2.2 hr
              rw [itemsM_split, itemsM_flat]
              rw [show ∀ (z a0 a1 a2 a3 : Multiset QTItem),
                  z + a0 + a1 + a2 + a3 = z + (a0 + a1 + a2 + a3) from
                  fun z a0 a1 a2 a3 => by abel]
              rw [h4]
              obtain ⟨e0, e1, e2, e3⟩ := itemsM_quadrants b d
              rw [e0, e1, e2, e3]
              simp only [← Multiset.singleton_add, add_zero]
              abel
          · rw [if_neg hD, itemsM_flat, itemsM_flat]
            exact coe_append_singleton its it
      · simp [insertGas, hC] at h
    | .split b its d c0 c1 c2 c3 =>
      by_cases hC : boundsContains b it.bounds = true
      · have hnc : ¬¬(boundsContains b it.bounds = true) := by simp [hC]
        simp only [insertGas, if_neg hnc] at h ⊢
        by_cases hB : its.length < maxItems ∧ d = 0
        · rw [if_pos hB, itemsM_split, itemsM_split, coe_append_singleton]
          simp only [← Multiset.singleton_add]
          abel
        · rw [if_neg hB] at h ⊢
          by_cases hD : d < maxDepth
          · rw [if_pos hD] at h ⊢
            rcases hr : (tryFour (fun c => insertGas gas c it)
                c0 c1 c2 c3).2 with _ | _
            · rw [if_neg (by simp [hr])]
              have h4 := tryFour_fail hf hr
              rw [itemsM_split, itemsM_split, h4]
              dsimp only
              rw [coe_append_singleton]
              simp only [← Multiset.singleton_add]
              abel
            · rw [if_pos (by simp [hr])]
              have h4 := tryFour_itemsM hs hf c0 c1 c2 c3 hr
              rw [itemsM_split, itemsM_split]
              rw [show ∀ (z a0 a1 a2 a3 : Multiset QTItem),
                  z + a0 + a1 + a2 + a3 = z + (a0 + a1 + a2 + a3) from
                  fun z a0 a1 a2 a3 => by abel]
              rw [h4]
              simp only [← Multiset.singleton_add]
              abel
          · rw [if_neg hD, itemsM_split, itemsM_split, coe_append_singleton]
            simp only [← Multiset.singleton_add]
            abel
      · simp [insertGas, hC] at h

/-- Behaviour of the child loop for an `ins` that preserves well-formedness
and root rectangles. -/
theorem tryFour_wf {ins : QuadTree → QuadTree × Bool}
    (hwf : ∀ c, wf c = true → wf (ins c).1 = true)
    (hb : ∀ c, (ins c).1.boundsOf = c.boundsOf)
    {b : Bounds} {q0 q1 q2 q3 : QuadTree}
    (h0 : boundsContains b q0.boundsOf = true ∧ wf q0 = true)
    (h1 : boundsContains b q1.boundsOf = true ∧ wf q1 = true)
    (h2 : boundsContains b q2.boundsOf = true ∧ wf q2 = true)
    (h3 : boundsContains b q3.boundsOf = true ∧ wf q3 = true) :
    (boundsContains b (tryFour ins q0 q1 q2 q3).1.1.boundsOf = true ∧
      wf (tryFour ins q0 q1 q2 q3).1.1 = true) ∧
    (boundsContains b (tryFour ins q0 q1 q2 q3).1.2.1.boundsOf = true ∧
      wf (tryFour ins q0 q1 q2 q3).1.2.1 = true) ∧
    (boundsContains b (tryFour ins q0 q1 q2 q3).1.2.2.1.boundsOf = true ∧
      wf (tryFour ins q0 q1 q2 q3).1.2.2.1 = true) ∧
    (boundsContains b (tryFour ins q0 q1 q2 q3).1.2.2.2.boundsOf = true ∧
      wf (tryFour ins q0 q1 q2 q3).1.2.2.2 = true) := by
  have hq : ∀ c, boundsContains b c.boundsOf = true → wf c = true →
      boundsContains b (ins c).1.boundsOf = true ∧ wf (ins c).1 = true :=
    fun c hc hw => ⟨by rw [hb c]; exact hc, hwf c hw⟩
  rcases hf0 : (ins q0).2 with _ | _
  · rcases hf1 : (ins q1).2 with _ | _
    · rcases hf2 : (ins q2).2 with _ | _
      · rw [tryFour_case3 hf0 hf1 hf2]
        exact ⟨hq q0 h0.1 h0.2, hq q1 h1.1 h1.2, hq q2 h2.1 h2.2,
          hq q3 h3.1 h3.2⟩
      · rw [tryFour_case2 hf0 hf1 hf2]
        exact ⟨hq q0 h0.1 h0.2, hq q1 h1.1 h1.2, hq q2 h2.1 h2.2, h3⟩
    · rw [tryFour_case1 hf0 hf1]
      exact ⟨hq q0 h0.1 h0.2, hq q1 h1.1 h1.2, h2, h3⟩
  · rw [tryFour_case0 hf0]
    exact ⟨hq q0 h0.1 h0.2, h1, h2, h3⟩

/-- `insert` preserves well-formedness, for every gas value. -/
theorem wf_insertGas :
    ∀ (gas : Nat) (t : QuadTree) (it : QTItem),
      wf t = true → wf (insertGas gas t it).1 = true := by
  intro gas
  induction gas with
  | zero => intro t it h; exact h
  | succ gas ih =>
    intro t it h
    have hb : ∀ c, (insertGas gas c it).1.boundsOf = c.boundsOf :=
      fun c => insertGas_boundsOf gas c it
    have hwf : ∀ c, wf c = true → wf (insertGas gas c it).1 = true :=
      fun c hc => ih c it hc
    match t with
    | .flat b its d =>
      obtain ⟨⟨hwd, hht⟩, hits⟩ := wf_flat_iff.mp h
      by_cases hC : boundsContains b it.bounds = true
      · have hnc : ¬¬(boundsContains b it.bounds = true) := by simp [hC]
        simp only [insertGas, if_neg hnc]
        have hits' : ∀ x ∈ its ++ [it], boundsContains b x.bounds = true := by
          intro x hx
          rcases List.mem_append.mp hx with hx | hx
          · exact hits x hx
          · rcases List.mem_singleton.mp hx with rfl
            exact hC
        by_cases hB : its.length < maxItems ∧ d = 0
        · rw [if_pos hB]
          exact wf_flat_iff.mpr ⟨⟨hwd, hht⟩, hits'⟩
        · rw [if_neg hB]
          by_cases hD : d < maxDepth
          · rw [if_pos hD]
            obtain ⟨c0, c1, c2, c3⟩ := quadrants_contained hwd hht d
            obtain ⟨w0, w1, w2, w3⟩ := wf_quadrants hwd hht d
            have h4 := tryFour_wf hwf hb (b := b) ⟨c0, w0⟩ ⟨c1, w1⟩ ⟨c2, w2⟩ ⟨c3, w3⟩
            split
            · exact wf_split_iff.mpr ⟨⟨hwd, hht⟩, hits, h4.1, h4.2.1,
                h4.2.2.1, h4.2.2.2⟩
            · exact wf_split_iff.mpr ⟨⟨hwd, hht⟩, hits', h4.1, h4.2.1,
                h4.2.2.1, h4.2.2.2⟩
          · rw [if_neg hD]
            exact wf_flat_iff.mpr ⟨⟨hwd, hht⟩, hits'⟩
      · simp [insertGas, hC]
        exact h
    | .split b its d c0 c1 c2 c3 =>
      obtain ⟨⟨hwd, hht⟩, hits, g0, g1, g2, g3⟩ := wf_split_iff.mp h
      by_cases hC : boundsContains b it.bounds = true
      · have hnc : ¬¬(boundsContains b it.bounds = true) := by simp [hC]
        simp only [insertGas, if_neg hnc]
        have hits' : ∀ x ∈ its ++ [it], boundsContains b x.bounds = true := by
          intro x hx
          rcases List.mem_append.mp hx with hx | hx
          · exact hits x hx
          · rcases List.mem_singleton.mp hx with rfl
            exact hC
        by_cases hB : its.length < maxItems ∧ d = 0
        · rw [if_pos hB]
          exact wf_split_iff.mpr ⟨⟨hwd, hht⟩, hits', g0, g1, g2, g3⟩
        · rw [if_neg hB]
          by_cases hD : d < maxDepth
          · rw [if_pos hD]
            have h4 := tryFour_wf hwf hb (b := b) g0 g1 g2 g3
            split
            · exact wf_split_iff.mpr ⟨⟨hwd, hht⟩, hits, h4.1, h4.2.1,
                h4.2.2.1, h4.2.2.2⟩
            · exact wf_split_iff.mpr ⟨⟨hwd, hht⟩, hits', h4.1, h4.2.1,
                h4.2.2.1, h4.2.2.2⟩
          · rw [if_neg hD]
            exact wf_split_iff.mpr ⟨⟨hwd, hht⟩, hits', g0, g1, g2, g3⟩
      · simp [insertGas, hC]
        exact h

/-! ### `remove` lemmas -/

theorem removeFirstById_subset {its : List QTItem} {tid : String} :
    ∀ x ∈ removeFirstById its tid, x ∈ its := by
  induction its with
  | nil => intro x hx; exact absurd hx (by simp [removeFirstById])
  | cons a its ih =>
    intro x hx
    simp only [removeFirstById] at hx
    split at hx
    · exact List.mem_cons_of_mem a hx
    · rcases List.mem_cons.mp hx with rfl | hx
      · exact List.mem_cons_self x its
      · exact List.mem_cons_of_mem a (ih x hx)

theorem removeFirstById_found {its : List QTItem} {tid : String}
    (h : ∃ x ∈ its, x.id = tid) :
    ∃ bb, (its : Multiset QTItem) =
      (⟨tid, bb⟩ : QTItem) ::ₘ (removeFirstById its tid : Multiset QTItem) := by
  induction its with
  | nil => simp at h
  | cons a its ih =>
    by_cases ha : a.id = tid
    · refine ⟨a.bounds, ?_⟩
      have : a = ⟨tid, a.bounds⟩ := by
        cases a
        simp_all
      rw [removeFirstById, if_pos ha, ← this, Multiset.cons_coe]
    · have h' : ∃ x ∈ its, x.id = tid := by
        rcases h with ⟨x, hx, hid⟩
        rcases List.mem_cons.mp hx with rfl | hx
        · exact absurd hid ha
        · exact ⟨x, hx, hid⟩
      obtain ⟨bb, hbb⟩ := ih h'
      refine ⟨bb, ?_⟩
      rw [removeFirstById, if_neg ha]
      rw [← Multiset.cons_coe, ← Multiset.cons_coe, hbb, Multiset.cons_swap]

/-- `remove` never changes the rectangle of the root node. -/
theorem remove_boundsOf (t : QuadTree) (tid : String) :
    (remove t tid).1.boundsOf = t.boundsOf := by
  match t with
  | .flat b its d =>
    simp only [remove]
    split <;> rfl
  | .split b its d c0 c1 c2 c3 =>
    simp only [remove]
    repeat' split
    all_goals rfl

/-- A failed `remove` leaves the tree unchanged, and means no stored item
carries the id. -/
theorem remove_fail :
    ∀ (t : QuadTree) (tid : String), (remove t tid).2 = false →
      (remove t tid).1 = t ∧ ∀ it ∈ t.allItems, it.id ≠ tid := by
  intro t
  induction t with
  | flat b its d =>
    intro tid h
    simp only [remove] at h ⊢
    split at h <;> rename_i hany
    · simp at h
    · rw [if_neg hany]
      refine ⟨rfl, ?_⟩
      intro it hit hid
      simp only [List.any_eq_true, decide_eq_true_eq, not_exists] at hany
      exact hany it ⟨hit, hid⟩
  | split b its d c0 c1 c2 c3 ih0 ih1 ih2 ih3 =>
    intro tid h
    simp only [remove] at h ⊢
    split at h <;> rename_i hany
    · simp at h
    · rw [if_neg hany]
      rcases hr0 : (remove c0 tid).2 with _ | _
      · have hc0 : ¬((remove c0 tid).2 = true) := by simp [hr0]
        rw [if_neg hc0] at h
        simp only [Bool.false_eq_true, if_false]
        rcases hr1 : (remove c1 tid).2 with _ | _
        · have hc1 : ¬((remove c1 tid).2 = true) := by simp [hr1]
          rw [if_neg hc1] at h
          simp only [Bool.false_eq_true, if_false]
          rcases hr2 : (remove c2 tid).2 with _ | _
          · have hc2 : ¬((remove c2 tid).2 = true) := by simp [hr2]
            rw [if_neg hc2] at h
            simp only [Bool.false_eq_true, if_false]
            obtain ⟨e0, m0⟩ := ih0 tid hr0
            obtain ⟨e1, m1⟩ := ih1 tid hr1
            obtain ⟨e2, m2⟩ := ih2 tid hr2
            obtain ⟨e3, m3⟩ := ih3 tid h
            refine ⟨by rw [e0, e1, e2, e3], ?_⟩
            intro it hit
            simp only [allItems, List.mem_append] at hit
            simp only [List.any_eq_true, decide_eq_true_eq, not_exists] at hany
            rcases hit with ((((hit | hit) | hit) | hit) | hit)
            · intro hid; exact hany it ⟨hit, hid⟩
            · exact m0 it hit
            · exact m1 it hit
            · exact m2 it hit
            · exact m3 it hit
          · rw [if_pos hr2] at h
            simp at h
        · rw [if_pos hr1] at h
          simp at h
      · rw [if_pos hr0] at h
        simp at h

/-- A successful `remove` deletes exactly one stored item with the given
id. -/
theorem remove_found :
    ∀ (t : QuadTree) (tid : String), (remove t tid).2 = true →
      ∃ bb, itemsM t =
        (⟨tid, bb⟩ : QTItem) ::ₘ itemsM (remove t tid).1 := by
  intro t
  induction t with
  | flat b its d =>
    intro tid h
    simp only [remove] at h ⊢
    split at h <;> rename_i hany
    · rw [if_pos hany]
      have hex : ∃ x ∈ its, x.id = tid := by
        simpa using List.any_eq_true.mp hany
      obtain ⟨bb, hbb⟩ := removeFirstById_found hex
      exact ⟨bb, hbb⟩
    · simp at h
  | split b its d c0 c1 c2 c3 ih0 ih1 ih2 ih3 =>
    intro tid h
    simp only [remove] at h ⊢
    split at h <;> rename_i hany
    · rw [if_pos hany]
      have hex : ∃ x ∈ its, x.id = tid := by
        simpa using List.any_eq_true.mp hany
      obtain ⟨bb, hbb⟩ := removeFirstById_found hex
      refine ⟨bb, ?_⟩
      rw [itemsM_split, itemsM_split, hbb]
      simp only [← Multiset.singleton_add]
      abel
    · rw [if_neg hany]
      rcases hr0 : (remove c0 tid).2 with _ | _
      · have hc0 : ¬((remove c0 tid).2 = true) := by simp [hr0]
        rw [if_neg hc0] at h
        simp only [Bool.false_eq_true, if_false]
        rcases hr1 : (remove c1 tid).2 with _ | _
        · have hc1 : ¬((remove c1 tid).2 = true) := by simp [hr1]
          rw [if_neg hc1] at h
          simp only [Bool.false_eq_true, if_false]
          rcases hr2 : (remove c2 tid).2 with _ | _
          · have hc2 : ¬((remove c2 tid).2 = true) := by simp [hr2]
            rw [if_neg hc2] at h
            simp only [Bool.false_eq_true, if_false]
            obtain ⟨bb, hbb⟩ := ih3 tid h
            refine ⟨bb, ?_⟩
            rw [itemsM_split, itemsM_split, hbb,
              (remove_fail c0 tid hr0).1, (remove_fail c1 tid hr1).1,
              (remove_fail c2 tid hr2).1]
            simp only [← Multiset.singleton_add]
            abel
          · rw [if_pos rfl]
            obtain ⟨bb, hbb⟩ := ih2 tid hr2
            refine ⟨bb, ?_⟩
            rw [itemsM_split, itemsM_split, hbb,
              (remove_fail c0 tid hr0).1, (remove_fail c1 tid hr1).1]
            simp only [← Multiset.singleton_add]
            abel
        · rw [if_pos rfl]
          obtain ⟨bb, hbb⟩ := ih1 tid hr1
          refine ⟨bb, ?_⟩
          rw [itemsM_split, itemsM_split, hbb,
            (remove_fail c0 tid hr0).1]
          simp only [← Multiset.singleton_add]
          abel
      · rw [if_pos rfl]
        obtain ⟨bb, hbb⟩ := ih0 tid hr0
        refine ⟨bb, ?_⟩
        rw [itemsM_split, itemsM_split, hbb]
        simp only [← Multiset.singleton_add]
        abel

/-- `remove` preserves well-formedness. -/
theorem wf_remove :
    ∀ (t : QuadTree) (tid : String), wf t = true → wf (remove t tid).1 = true := by
  intro t
  induction t with
  | flat b its d =>
    intro tid h
    obtain ⟨hne, hits⟩ := wf_flat_iff.mp h
    simp only [remove]
    split
    · exact wf_flat_iff.mpr ⟨hne, fun x hx =>
        hits x (removeFirstById_subset x hx)⟩
    · exact h
  | split b its d c0 c1 c2 c3 ih0 ih1 ih2 ih3 =>
    intro tid h
    obtain ⟨hne, hits, g0, g1, g2, g3⟩ := wf_split_iff.mp h
    simp only [remove]
    split
    · exact wf_split_iff.mpr ⟨hne, fun x hx =>
        hits x (removeFirstById_subset x hx), g0, g1, g2, g3⟩
    · split
      · exact wf_split_iff.mpr ⟨hne, hits,
          ⟨by rw [remove_boundsOf]; exact g0.1, ih0 tid g0.2⟩, g1, g2, g3⟩
      · split
        · exact wf_split_iff.mpr ⟨hne, hits,
            ⟨by rw [remove_boundsOf]; exact g0.1, ih0 tid g0.2⟩,
            ⟨by rw [remove_boundsOf]; exact g1.1, ih1 tid g1.2⟩, g2, g3⟩
        · split
          · exact wf_split_iff.mpr ⟨hne, hits,
              ⟨by rw [remove_boundsOf]; exact g0.1, ih0 tid g0.2⟩,
              ⟨by rw [remove_boundsOf]; exact g1.1, ih1 tid g1.2⟩,
              ⟨by rw [remove_boundsOf]; exact g2.1, ih2 tid g2.2⟩, g3⟩
          · exact wf_split_iff.mpr ⟨hne, hits,
              ⟨by rw [remove_boundsOf]; exact g0.1, ih0 tid g0.2⟩,
              ⟨by rw [remove_boundsOf]; exact g1.1, ih1 tid g1.2⟩,
              ⟨by rw [remove_boundsOf]; exact g2.1, ih2 tid g2.2⟩,
              ⟨by rw [remove_boundsOf]; exact g3.1, ih3 tid g3.2⟩⟩

/-! ### `query` exactness -/

/-- In a well-formed tree, every stored item is contained in the root
rectangle. -/
theorem allItems_contained :
    ∀ (t : QuadTree), wf t = true →
      ∀ it ∈ t.allItems, boundsContains t.boundsOf it.bounds = true := by
  intro t
  induction t with
  | flat b its d =>
    intro h it hit
    exact (wf_flat_iff.mp h).2 it hit
  | split b its d c0 c1 c2 c3 ih0 ih1 ih2 ih3 =>
    intro h it hit
    obtain ⟨hne, hits, g0, g1, g2, g3⟩ := wf_split_iff.mp h
    simp only [allItems, List.mem_append] at hit
    rcases hit with ((((hit | hit) | hit) | hit) | hit)
    · exact hits it hit
    · exact boundsContains_trans g0.1 (ih0 g0.2 it hit)
    · exact boundsContains_trans g1.1 (ih1 g1.2 it hit)
    · exact boundsContains_trans g2.1 (ih2 g2.2 it hit)
    · exact boundsContains_trans g3.1 (ih3 g3.2 it hit)

/-- On well-formed trees, `query` returns exactly the stored items whose
bounds intersect the region, in traversal order. -/
theorem query_spec :
    ∀ (t : QuadTree) (r : Bounds), wf t = true →
      query t r = t.allItems.filter fun it => boundsIntersects it.bounds r := by
  intro t
  induction t with
  | flat b its d =>
    intro r h
    simp only [query, allItems]
    split
    · rename_i hmiss
      simp only [Bool.not_eq_true] at hmiss
      symm
      rw [List.filter_eq_nil_iff]
      intro it hit
      simp only [Bool.not_eq_true]
      rcases hint : boundsIntersects it.bounds r with _ | _
      · rfl
      · have hc := (wf_flat_iff.mp h).2 it hit
        have := boundsIntersects_of_contains hc hint
        rw [boundsIntersects_symm] at this
        rw [this] at hmiss
        exact absurd hmiss (by simp)
    · rfl
  | split b its d c0 c1 c2 c3 ih0 ih1 ih2 ih3 =>
    intro r h
    obtain ⟨hne, hits, g0, g1, g2, g3⟩ := wf_split_iff.mp h
    simp only [query, allItems]
    split
    · rename_i hmiss
      simp only [Bool.not_eq_true] at hmiss
      symm
      rw [List.filter_eq_nil_iff]
      intro it hit
      simp only [Bool.not_eq_true]
      rcases hint : boundsIntersects it.bounds r with _ | _
      · rfl
      · have hc := allItems_contained (.split b its d c0 c1 c2 c3) h it hit
        have := boundsIntersects_of_contains hc hint
        rw [boundsIntersects_symm] at this
        simp only [boundsOf] at this
        rw [this] at hmiss
        exact absurd hmiss (by simp)
    · rw [List.filter_append, List.filter_append, List.filter_append,
        List.filter_append, ih0 r g0.2, ih1 r g1.2, ih2 r g2.2, ih3 r g3.2]

/-! ### `clear` lemmas -/

theorem clear_boundsOf (t : QuadTree) : t.clear.boundsOf = t.boundsOf := by
  cases t <;> rfl

theorem itemsM_clear (t : QuadTree) : itemsM t.clear = 0 := by
  cases t <;> rfl

theorem wf_clear (t : QuadTree) (h : wf t = true) : wf t.clear = true := by
  cases t with
  | flat b its d =>
    obtain ⟨hne, _⟩ := wf_flat_iff.mp h
    exact wf_flat_iff.mpr ⟨hne, by simp⟩
  | split b its d c0 c1 c2 c3 =>
    obtain ⟨hne, _⟩ := wf_split_iff.mp h
    exact wf_flat_iff.mpr ⟨hne, by simp⟩

/-! ### Wrappers for the public `insert` -/

theorem insert_snd (t : QuadTree) (it : QTItem) :
    (insert t it).2 = boundsContains t.boundsOf it.bounds :=
  insertGas_snd (maxDepth + 1) t it

theorem insert_fail {t : QuadTree} {it : QTItem}
    (h : (insert t it).2 = false) : (insert t it).1 = t :=
  insertGas_fail (maxDepth + 2) t it h

theorem insert_itemsM {t : QuadTree} {it : QTItem}
    (h : (insert t it).2 = true) : itemsM (insert t it).1 = it ::ₘ itemsM t :=
  insertGas_itemsM (maxDepth + 2) t it h

theorem wf_insert (t : QuadTree) (it : QTItem) (h : wf t = true) :
    wf (insert t it).1 = true :=
  wf_insertGas (maxDepth + 2) t it h

theorem insert_boundsOf (t : QuadTree) (it : QTItem) :
    (insert t it).1.boundsOf = t.boundsOf :=
  insertGas_boundsOf (maxDepth + 2) t it

end QuadTree

/-! ## Association list lemmas -/

theorem alKeys_append {α : Type} (l1 l2 : List (String × α)) :
    alKeys (l1 ++ l2) = alKeys l1 ++ alKeys l2 := by
  simp [alKeys]

theorem alKeys_cons {α : Type} (kv : String × α) (l : List (String × α)) :
    alKeys (kv :: l) = kv.1 :: alKeys l := rfl

theorem alGet_cons {α : Type} (k' : String) (v' : α) (rest : List (String × α))
    (k : String) :
    alGet ((k', v') :: rest) k = if k' = k then some v' else alGet rest k := by
  by_cases h : k' = k
  · simp [alGet, List.find?_cons_of_pos, h]
  · rw [if_neg h]
    unfold alGet
    rw [List.find?_cons_of_neg]
    simp [h]

theorem alGet_not_mem {α : Type} {m : List (String × α)} {k : String}
    (h : k ∉ alKeys m) : alGet m k = none := by
  induction m with
  | nil => rfl
  | cons kv rest ih =>
    rw [show kv = (kv.1, kv.2) from rfl, alGet_cons]
    rw [alKeys_cons] at h
    rw [if_neg (by intro he; exact h (he ▸ List.mem_cons_self _ _))]
    exact ih fun hm => h (List.mem_cons_of_mem _ hm)

theorem alGet_split {α : Type} {l1 : List (String × α)} {k : String}
    (h : k ∉ alKeys l1) (x : α) (l2 : List (String × α)) :
    alGet (l1 ++ (k, x) :: l2) k = some x := by
  induction l1 with
  | nil => simp [alGet_cons]
  | cons kv rest ih =>
    rw [List.cons_append, show kv = (kv.1, kv.2) from rfl, alGet_cons]
    rw [alKeys_cons] at h
    rw [if_neg (by intro he; exact h (he ▸ List.mem_cons_self _ _))]
    exact ih fun hm => h (List.mem_cons_of_mem _ hm)

theorem mem_keys_split {α : Type} {m : List (String × α)} {k : String}
    (h : k ∈ alKeys m) :
    ∃ l1 x l2, m = l1 ++ (k, x) :: l2 ∧ k ∉ alKeys l1 := by
  induction m with
  | nil => simp [alKeys] at h
  | cons kv rest ih =>
    by_cases hk : kv.1 = k
    · exact ⟨[], kv.2, rest, by rw [show kv = (kv.1, kv.2) from rfl, hk]; rfl,
        by simp [alKeys]⟩
    · rw [alKeys_cons] at h
      rcases List.mem_cons.mp h with h | h
      · exact absurd h.symm hk
      · obtain ⟨l1, x, l2, he, hn⟩ := ih h
        refine ⟨kv :: l1, x, l2, by rw [he]; rfl, ?_⟩
        rw [alKeys_cons]
        intro hm
        rcases List.mem_cons.mp hm with hm | hm
        · exact hk hm.symm
        · exact hn hm

theorem alSet_not_mem {α : Type} {m : List (String × α)} {k : String}
    (h : k ∉ alKeys m) (v : α) : alSet m k v = m ++ [(k, v)] := by
  induction m with
  | nil => rfl
  | cons kv rest ih =>
    rw [alKeys_cons] at h
    rw [show kv = (kv.1, kv.2) from rfl, alSet]
    rw [if_neg (by intro he; exact h (he ▸ List.mem_cons_self _ _))]
    rw [ih fun hm => h (List.mem_cons_of_mem _ hm)]
    rfl

theorem alSet_split {α : Type} {l1 : List (String × α)} {k : String}
    (h : k ∉ alKeys l1) (x : α) (l2 : List (String × α)) (v : α) :
    alSet (l1 ++ (k, x) :: l2) k v = l1 ++ (k, v) :: l2 := by
  induction l1 with
  | nil => simp [alSet]
  | cons kv rest ih =>
    rw [alKeys_cons] at h
    rw [List.cons_append, show kv = (kv.1, kv.2) from rfl, alSet]
    rw [if_neg (by intro he; exact h (he ▸ List.mem_cons_self _ _))]
    rw [ih fun hm => h (List.mem_cons_of_mem _ hm)]
    rfl

theorem alDelete_split {α : Type} {l1 : List (String × α)} {k : String}
    (h : k ∉ alKeys l1) (x : α) (l2 : List (String × α)) :
    alDelete (l1 ++ (k, x) :: l2) k = l1 ++ l2 := by
  induction l1 with
  | nil => simp [alDelete]
  | cons kv rest ih =>
    rw [alKeys_cons] at h
    rw [List.cons_append, show kv = (kv.1, kv.2) from rfl, alDelete]
    rw [if_neg (by intro he; exact h (he ▸ List.mem_cons_self _ _))]
    rw [ih fun hm => h (List.mem_cons_of_mem _ hm)]
    rfl

theorem alGet_of_mem_nodup {α : Type} {m : List (String × α)} {k : String}
    {v : α} (hmem : (k, v) ∈ m) (hnd : (alKeys m).Nodup) :
    alGet m k = some v := by
  induction m with
  | nil => simp at hmem
  | cons kv rest ih =>
    rw [alKeys_cons] at hnd
    rcases List.mem_cons.mp hmem with rfl | hmem
    · simp [alGet_cons]
    · rw [show kv = (kv.1, kv.2) from rfl, alGet_cons]
      have hk : kv.1 ≠ k := by
        intro he
        exact (List.nodup_cons.mp hnd).1 (he ▸ (by
          exact List.mem_map_of_mem Prod.fst hmem))
      rw [if_neg hk]
      exact ih hmem (List.nodup_cons.mp hnd).2

theorem alGet_mem {α : Type} {m : List (String × α)} {k : String} {v : α}
    (h : alGet m k = some v) : (k, v) ∈ m := by
  induction m with
  | nil => simp [alGet] at h
  | cons kv rest ih =>
    rw [show kv = (kv.1, kv.2) from rfl, alGet_cons] at h
    split at h
    · rename_i he
      rcases Option.some_inj.mp h
      exact he ▸ List.mem_cons_self _ _
    · exact List.mem_cons_of_mem _ (ih h)

theorem alGet_mem_keys {α : Type} {m : List (String × α)} {k : String} {v : α}
    (h : alGet m k = some v) : k ∈ alKeys m := by
  have := alGet_mem h
  exact List.mem_map_of_mem Prod.fst this

/-! ## Graph-level consistency: `getNodesInBounds` exactness -/

/-- The item built from a stored map entry. -/
theorem mem_map_mkItem_id {m : List (String × Node)} {it : QTItem}
    (h : it ∈ m.map fun kv => QTItem.mk kv.1 (Node.boundsRect kv.2)) :
    it.id ∈ alKeys m := by
  rcases List.mem_map.mp h with ⟨kv, hkv, rfl⟩
  exact List.mem_map_of_mem Prod.fst hkv

theorem resolveFilter_aux {m : List (String × Node)} {R : Bounds} :
    ∀ l : List (String × Node),
      (∀ kv ∈ l, alGet m kv.1 = some kv.2) →
      ((l.map fun kv => QTItem.mk kv.1 (Node.boundsRect kv.2)).filter
        fun it => boundsIntersects it.bounds R).filterMap
          (fun it => alGet m it.id) =
      (l.map Prod.snd).filter fun n => boundsIntersects (Node.boundsRect n) R := by
  intro l
  induction l with
  | nil => intro _; rfl
  | cons kv rest ih =>
    intro hres
    have hkv := hres kv (List.mem_cons_self kv rest)
    have hrest : ∀ kv' ∈ rest, alGet m kv'.1 = some kv'.2 :=
      fun kv' h => hres kv' (List.mem_cons_of_mem kv h)
    simp only [List.map_cons, List.filter_cons]
    by_cases hp : boundsIntersects (Node.boundsRect kv.2) R = true
    · rw [if_pos (by simpa using hp), if_pos (by simpa using hp)]
      simp only [List.filterMap_cons]
      rw [show alGet m (QTItem.mk kv.1 (Node.boundsRect kv.2)).id = some kv.2
        from hkv]
      rw [ih hrest]
    · rw [if_neg (by simpa using hp), if_neg (by simpa using hp)]
      exact ih hrest

/-- Under the node-side invariant, `getNodesInBounds R` returns — up to
ordering — exactly the stored nodes whose current rectangle intersects
`R`. -/
theorem getNodesInBounds_exact {g : Graph} (hinv : Graph.nodeInv g)
    (R : Bounds) :
    (Graph.getNodesInBounds g R).Perm
      ((alValues g.nodes).filter fun n =>
        boundsIntersects (Node.boundsRect n) R) := by
  obtain ⟨hwf, hitems, hnd⟩ := hinv
  unfold Graph.getNodesInBounds
  rw [QuadTree.query_spec g.nodeQuadTree R hwf]
  have hperm : (QuadTree.allItems g.nodeQuadTree).Perm
      (g.nodes.map fun kv => QTItem.mk kv.1 (Node.boundsRect kv.2)) :=
    Multiset.coe_eq_coe.mp hitems
  have h2 := (hperm.filter fun it => boundsIntersects it.bounds R).filterMap
    fun it => alGet g.nodes it.id
  refine h2.trans ?_
  rw [resolveFilter_aux g.nodes fun kv hkv =>
    alGet_of_mem_nodup (by exact hkv) hnd]
  exact List.Perm.refl _

/-! ## Preservation of the node-side invariant -/

theorem alGet_alSet {α : Type} (m : List (String × α)) (k : String) (v : α) :
    alGet (alSet m k v) k = some v := by
  induction m with
  | nil => simp [alSet, alGet_cons]
  | cons kv rest ih =>
    rw [show kv = (kv.1, kv.2) from rfl, alSet]
    by_cases h : kv.1 = k
    · rw [if_pos h]
      simp [alGet_cons]
    · rw [if_neg h, alGet_cons, if_neg h]
      exact ih

theorem getBounds_cache_none {n : Node} (h : n.cacheBounds = none) :
    Node.getBounds n =
      ({ n with cacheBounds := some (Node.boundsRect n) }, Node.boundsRect n) := by
  unfold Node.getBounds
  rw [h]

theorem cons_cancel_by_id {a b : QTItem} {X Y : Multiset QTItem}
    (heq : a ::ₘ X = b ::ₘ Y) (hid : a.id = b.id)
    (hY : ∀ it ∈ Y, it.id ≠ b.id) : X = Y := by
  rcases Multiset.cons_eq_cons.mp heq with ⟨_, h⟩ | ⟨hne, cs, hX, hY2⟩
  · exact h
  · exfalso
    have ha : a ∈ Y := by
      rw [hY2]
      exact Multiset.mem_cons_self a cs
    exact hY a ha hid

theorem map_mkItem_middle (l1 l2 : List (String × Node)) (k : String)
    (n : Node) :
    (((l1 ++ (k, n) :: l2).map fun kv => QTItem.mk kv.1 (Node.boundsRect kv.2)) :
        Multiset QTItem) =
      QTItem.mk k (Node.boundsRect n) ::ₘ
        (((l1 ++ l2).map fun kv => QTItem.mk kv.1 (Node.boundsRect kv.2)) :
          Multiset QTItem) := by
  simp only [List.map_append, List.map_cons]
  calc ((l1.map fun kv => QTItem.mk kv.1 (Node.boundsRect kv.2)) ++
        QTItem.mk k (Node.boundsRect n) ::
          (l2.map fun kv => QTItem.mk kv.1 (Node.boundsRect kv.2)) :
          Multiset QTItem)
      = ((QTItem.mk k (Node.boundsRect n) ::
          ((l1.map fun kv => QTItem.mk kv.1 (Node.boundsRect kv.2)) ++
           (l2.map fun kv => QTItem.mk kv.1 (Node.boundsRect kv.2))) :
            List QTItem) : Multiset QTItem) :=
        Multiset.coe_eq_coe.mpr List.perm_middle
    _ = QTItem.mk k (Node.boundsRect n) ::ₘ
        (((l1.map fun kv => QTItem.mk kv.1 (Node.boundsRect kv.2)) ++
          (l2.map fun kv => QTItem.mk kv.1 (Node.boundsRect kv.2))) :
          Multiset QTItem) := (Multiset.cons_coe _ _).symm

/-- `createNode` keeps the invariant when the id is fresh and the new
node's rectangle fits the index's world rectangle. -/
theorem nodeInv_createNode {g : Graph} {data : NodeData}
    (hinv : Graph.nodeInv g)
    (hfresh : data.id ∉ alKeys g.nodes)
    (hcont : boundsContains g.nodeQuadTree.boundsOf
      (Node.boundsRect (Node.make data)) = true) :
    Graph.nodeInv (Graph.createNode g data).1 := by
  obtain ⟨hwf, hitems, hnd⟩ := hinv
  simp only [Graph.createNode, Graph.nodeInv, getBounds_cache_none
    (show (Node.make data).cacheBounds = none from rfl)]
  have hsnd : (QuadTree.insert g.nodeQuadTree
      ⟨(Node.make data).id, Node.boundsRect (Node.make data)⟩).2 = true := by
    rw [QuadTree.insert_snd]
    exact hcont
  have hfresh' : (Node.make data).id ∉ alKeys g.nodes := hfresh
  refine ⟨QuadTree.wf_insert _ _ hwf, ?_, ?_⟩
  · rw [QuadTree.insert_itemsM hsnd, hitems, alSet_not_mem hfresh']
    simp only [List.map_append, List.map_cons, List.map_nil]
    rw [QuadTree.coe_append_singleton]
    rfl
  · rw [alSet_not_mem hfresh', alKeys_append]
    simp only [List.nodup_append, alKeys, List.map_cons, List.map_nil]
    exact ⟨hnd, List.nodup_singleton _, by simpa [alKeys] using hfresh'⟩

/-- Every id in the item multiset of a well-kept tree is a map key. -/
theorem itemsM_id_mem_keys {m : List (String × Node)} {it : QTItem}
    (h : it ∈ ((m.map fun kv => QTItem.mk kv.1 (Node.boundsRect kv.2)) :
      Multiset QTItem)) : it.id ∈ alKeys m := by
  rw [Multiset.mem_coe] at h
  exact mem_map_mkItem_id h

/-- `moveNode` keeps the invariant when the node's rectangle at the new
position fits the index's world rectangle (or the id is absent). -/
theorem nodeInv_moveNode {g : Graph} {nid : String} {x y : ℚ}
    (hinv : Graph.nodeInv g)
    (hcont : ∀ n, alGet g.nodes nid = some n →
      boundsContains g.nodeQuadTree.boundsOf
        (Node.boundsRect (Node.setPositionState n x y)) = true) :
    Graph.nodeInv (Graph.moveNode g nid x y).1 := by
  obtain ⟨hwf, hitems, hnd⟩ := hinv
  rcases hget : alGet g.nodes nid with _ | n
  · simp only [Graph.moveNode, hget]
    exact ⟨hwf, hitems, hnd⟩
  · obtain ⟨l1, xv, l2, hm, hnotin⟩ := mem_keys_split (alGet_mem_keys hget)
    have hxv : xv = n := by
      have hs := alGet_split hnotin xv l2
      rw [← hm] at hs
      rw [hs] at hget
      exact Option.some_inj.mp hget
    subst hxv
    have hkeys : alKeys g.nodes = alKeys l1 ++ nid :: alKeys l2 := by
      rw [hm, alKeys_append, alKeys_cons]
    have hnid2 : nid ∉ alKeys l2 := by
      rw [hkeys] at hnd
      have h2 := (List.nodup_append.mp hnd).2.1
      exact (List.nodup_cons.mp h2).1
    have hsplitM := map_mkItem_middle l1 l2 nid xv
    have hmem : QTItem.mk nid (Node.boundsRect xv) ∈
        QuadTree.allItems g.nodeQuadTree := by
      have hin : QTItem.mk nid (Node.boundsRect xv) ∈
          QuadTree.itemsM g.nodeQuadTree := by
        rw [hitems, hm, hsplitM]
        exact Multiset.mem_cons_self _ _
      rwa [QuadTree.itemsM, Multiset.mem_coe] at hin
    rcases hr : (QuadTree.remove g.nodeQuadTree nid).2 with _ | _
    · exact absurd rfl
        ((QuadTree.remove_fail g.nodeQuadTree nid hr).2 _ hmem)
    · obtain ⟨bb, hbb⟩ := QuadTree.remove_found g.nodeQuadTree nid hr
      have hX : QuadTree.itemsM (QuadTree.remove g.nodeQuadTree nid).1 =
          (((l1 ++ l2).map fun kv => QTItem.mk kv.1 (Node.boundsRect kv.2)) :
            Multiset QTItem) := by
        refine cons_cancel_by_id (a := ⟨nid, bb⟩)
          (b := ⟨nid, Node.boundsRect xv⟩) ?_ rfl ?_
        · rw [← hbb, hitems, hm, hsplitM]
        · intro it hmem2 hid
          have hk := itemsM_id_mem_keys hmem2
          rw [alKeys_append] at hk
          rw [show (QTItem.mk nid (Node.boundsRect xv)).id = nid from rfl] at hid
          rw [hid] at hk
          rcases List.mem_append.mp hk with hh | hh
          · exact hnotin hh
          · exact hnid2 hh
      simp only [Graph.moveNode, hget, Graph.nodeInv]
      rw [getBounds_cache_none
        (show (Node.setPositionState xv x y).cacheBounds = none from rfl)]
      have hsnd : (QuadTree.insert (QuadTree.remove g.nodeQuadTree nid).1
          ⟨nid, Node.boundsRect (Node.setPositionState xv x y)⟩).2 = true := by
        rw [QuadTree.insert_snd, QuadTree.remove_boundsOf]
        exact hcont xv hget
      have hset1 : alSet g.nodes nid (Node.setPositionState xv x y) =
          l1 ++ (nid, Node.setPositionState xv x y) :: l2 := by
        rw [hm, alSet_split hnotin]
      refine ⟨QuadTree.wf_insert _ _ (QuadTree.wf_remove _ _ hwf), ?_, ?_⟩
      · rw [QuadTree.insert_itemsM hsnd, hX, hset1, alSet_split hnotin,
          map_mkItem_middle]
        rfl
      · rw [hset1, alSet_split hnotin, alKeys_append, alKeys_cons]
        rw [hkeys] at hnd
        exact hnd

/-- `removeEdge` does not touch the node map or the node index. -/
theorem removeEdge_nodes_frame (g : Graph) (eid : String) :
    (Graph.removeEdge g eid).1.nodes = g.nodes ∧
    (Graph.removeEdge g eid).1.nodeQuadTree = g.nodeQuadTree := by
  unfold Graph.removeEdge
  rcases alGet g.edges eid with _ | e
  · exact ⟨rfl, rfl⟩
  · exact ⟨rfl, rfl⟩

theorem removeEdges_foldl_frame :
    ∀ (eids : List String) (acc : Graph × List GEvent),
      ((eids.foldl (fun acc eid =>
        let r := Graph.removeEdge acc.1 eid
        (r.1, acc.2 ++ r.2)) acc).1.nodes = acc.1.nodes ∧
       (eids.foldl (fun acc eid =>
        let r := Graph.removeEdge acc.1 eid
        (r.1, acc.2 ++ r.2)) acc).1.nodeQuadTree = acc.1.nodeQuadTree) := by
  intro eids
  induction eids with
  | nil => intro acc; exact ⟨rfl, rfl⟩
  | cons eid rest ih =>
    intro acc
    simp only [List.foldl_cons]
    have h1 := removeEdge_nodes_frame acc.1 eid
    have h2 := ih ((Graph.removeEdge acc.1 eid).1,
      acc.2 ++ (Graph.removeEdge acc.1 eid).2)
    exact ⟨h2.1.trans h1.1, h2.2.trans h1.2⟩

/-- Neither does the edge sweep of `removeNode`. -/
theorem removeEdges_nodes_frame (g : Graph) (eids : List String) :
    (Graph.removeEdges g eids).1.nodes = g.nodes ∧
    (Graph.removeEdges g eids).1.nodeQuadTree = g.nodeQuadTree :=
  removeEdges_foldl_frame eids (g, [])

theorem alDelete_of_not_mem {α : Type} {m : List (String × α)} {k : String}
    (h : k ∉ alKeys m) : alDelete m k = m := by
  induction m with
  | nil => rfl
  | cons kv rest ih =>
    obtain ⟨k', v'⟩ := kv
    rw [alKeys_cons] at h
    simp only [List.mem_cons] at h
    push_neg at h
    show (if k' = k then rest else (k', v') :: alDelete rest k) =
      (k', v') :: rest
    rw [if_neg (fun hh => h.1 hh.symm), ih h.2]

theorem alKeys_alDelete_sublist {α : Type} (m : List (String × α))
    (k : String) : (alKeys (alDelete m k)).Sublist (alKeys m) := by
  induction m with
  | nil => exact List.Sublist.refl _
  | cons kv rest ih =>
    by_cases h : kv.1 = k
    · simp only [alDelete, if_pos h, alKeys_cons]
      exact List.sublist_cons_of_sublist _ (List.Sublist.refl _)
    · simp only [alDelete, if_neg h, alKeys_cons]
      exact List.Sublist.cons₂ _ ih

theorem alGet_alDelete_self {α : Type} {m : List (String × α)} {k : String}
    (hnd : (alKeys m).Nodup) : alGet (alDelete m k) k = none := by
  induction m with
  | nil => rfl
  | cons kv rest ih =>
    obtain ⟨k', v'⟩ := kv
    rw [alKeys_cons, List.nodup_cons] at hnd
    by_cases h : k' = k
    · show alGet (if k' = k then rest else (k', v') :: alDelete rest k) k =
        none
      rw [if_pos h]
      exact alGet_not_mem (h ▸ hnd.1)
    · show alGet (if k' = k then rest else (k', v') :: alDelete rest k) k =
        none
      rw [if_neg h, alGet_cons, if_neg h]
      exact ih hnd.2

theorem mem_alDelete {α : Type} {m : List (String × α)} {k : String}
    {kv : String × α} (hnd : (alKeys m).Nodup) (h : kv ∈ alDelete m k) :
    kv ∈ m ∧ kv.1 ≠ k := by
  induction m with
  | nil => simp [alDelete] at h
  | cons kv' rest ih =>
    obtain ⟨k', v'⟩ := kv'
    rw [alKeys_cons, List.nodup_cons] at hnd
    by_cases hk : k' = k
    · rw [show alDelete ((k', v') :: rest) k = rest from by
        show (if k' = k then rest else (k', v') :: alDelete rest k) = rest
        rw [if_pos hk]] at h
      refine ⟨List.mem_cons_of_mem _ h, fun hkk => ?_⟩
      apply hnd.1
      have hm : kv.1 ∈ alKeys rest := List.mem_map_of_mem Prod.fst h
      rwa [hkk, ← hk] at hm
    · rw [show alDelete ((k', v') :: rest) k =
          (k', v') :: alDelete rest k from by
        show (if k' = k then rest else (k', v') :: alDelete rest k) = _
        rw [if_neg hk]] at h
      rcases List.mem_cons.mp h with heq | hmem
      · subst heq
        exact ⟨List.mem_cons_self _ _, hk⟩
      · have hr := ih hnd.2 hmem
        exact ⟨List.mem_cons_of_mem _ hr.1, hr.2⟩

theorem mem_foldl_alDelete {α : Type} :
    ∀ (ks : List String) (m : List (String × α)) (kv : String × α),
      (alKeys m).Nodup → kv ∈ ks.foldl alDelete m →
      kv ∈ m ∧ kv.1 ∉ ks := by
  intro ks
  induction ks with
  | nil => exact fun m kv _ h => ⟨h, List.not_mem_nil _⟩
  | cons k ks ih =>
    intro m kv hnd h
    have hnd' : (alKeys (alDelete m k)).Nodup :=
      hnd.sublist (alKeys_alDelete_sublist m k)
    have h1 := ih (alDelete m k) kv hnd' h
    have h2 := mem_alDelete hnd h1.1
    refine ⟨h2.1, ?_⟩
    simp only [List.mem_cons]
    push_neg
    exact ⟨h2.2, h1.2⟩

theorem removeEdge_edges (g : Graph) (eid : String) :
    (Graph.removeEdge g eid).1.edges = alDelete g.edges eid := by
  unfold Graph.removeEdge
  rcases h : alGet g.edges eid with _ | e
  · have hnm : eid ∉ alKeys g.edges := by
      intro hmem
      rcases mem_keys_split hmem with ⟨l1, x, l2, heq, hn1⟩
      rw [heq, alGet_split hn1] at h
      exact Option.noConfusion h
    simp only []
    rw [alDelete_of_not_mem hnm]
  · rfl

theorem removeEdges_edges_foldl :
    ∀ (eids : List String) (acc : Graph × List GEvent),
      (eids.foldl (fun acc eid =>
        let r := Graph.removeEdge acc.1 eid
        (r.1, acc.2 ++ r.2)) acc).1.edges =
      eids.foldl alDelete acc.1.edges := by
  intro eids
  induction eids with
  | nil => intro acc; rfl
  | cons eid rest ih =>
    intro acc
    rw [List.foldl_cons, List.foldl_cons, ih]
    rw [removeEdge_edges]

theorem removeEdges_edges (g : Graph) (eids : List String) :
    (Graph.removeEdges g eids).1.edges = eids.foldl alDelete g.edges :=
  removeEdges_edges_foldl eids (g, [])

theorem removeNode_found {g : Graph} {nid : String} {n : Node}
    (hget : alGet g.nodes nid = some n) :
    (Graph.removeNode g nid).1.nodes = alDelete g.nodes nid ∧
    (Graph.removeNode g nid).1.edges =
      (((alValues g.edges).filter fun e =>
        e.sourcePort.nodeId = nid ∨ e.targetPort.nodeId = nid).map
        Edge.id).foldl alDelete g.edges := by
  simp only [Graph.removeNode, hget]
  refine ⟨?_, ?_⟩
  · rw [(removeEdges_nodes_frame _ _).1]
  · rw [removeEdges_edges]

theorem alGet_none_not_mem {α : Type} {m : List (String × α)} {k : String}
    (h : alGet m k = none) : k ∉ alKeys m := by
  intro hmem
  rcases mem_keys_split hmem with ⟨l1, x, l2, heq, hn1⟩
  rw [heq, alGet_split hn1] at h
  exact Option.noConfusion h

theorem alGet_some_of_mem {α : Type} {m : List (String × α)} {k : String}
    (h : k ∈ alKeys m) : ∃ v, alGet m k = some v := by
  rcases mem_keys_split h with ⟨l1, x, l2, heq, hn1⟩
  exact ⟨x, by rw [heq, alGet_split hn1]⟩

theorem alKeys_alSet_mem {α : Type} {m : List (String × α)} {k : String}
    (h : k ∈ alKeys m) (v : α) : alKeys (alSet m k v) = alKeys m := by
  induction m with
  | nil => simp [alKeys] at h
  | cons kv rest ih =>
    obtain ⟨k', v'⟩ := kv
    by_cases hk : k' = k
    · show alKeys (if k' = k then (k, v) :: rest else
        (k', v') :: alSet rest k v) = _
      rw [if_pos hk, alKeys_cons, alKeys_cons, hk]
    · rw [alKeys_cons, List.mem_cons] at h
      rcases h with h | h
      · exact absurd h.symm hk
      · show alKeys (if k' = k then (k, v) :: rest else
          (k', v') :: alSet rest k v) = _
        rw [if_neg hk, alKeys_cons, alKeys_cons, ih h]

theorem alSet_alSet_same {α : Type} (m : List (String × α)) (k : String)
    (v w : α) : alSet (alSet m k v) k w = alSet m k w := by
  induction m with
  | nil =>
    show alSet [(k, v)] k w = [(k, w)]
    show (if k = k then [(k, w)] else (k, v) :: alSet [] k w) = [(k, w)]
    rw [if_pos rfl]
  | cons kv rest ih =>
    obtain ⟨k', v'⟩ := kv
    by_cases hk : k' = k
    · subst hk
      show alSet (if k' = k' then (k', v) :: rest else
        (k', v') :: alSet rest k' v) k' w = _
      rw [if_pos rfl]
      show (if k' = k' then (k', w) :: rest else
        (k', v) :: alSet rest k' w) = _
      rw [if_pos rfl]
      show _ = (if k' = k' then (k', w) :: rest else
        (k', v') :: alSet rest k' w)
      rw [if_pos rfl]
    · show alSet (if k' = k then (k, v) :: rest else
        (k', v') :: alSet rest k v) k w = _
      rw [if_neg hk]
      show (if k' = k then (k, w) :: alSet rest k v else
        (k', v') :: alSet (alSet rest k v) k w) = _
      rw [if_neg hk, ih]
      show _ = (if k' = k then (k, w) :: rest else
        (k', v') :: alSet rest k w)
      rw [if_neg hk]

theorem map_pres_alSet {α β : Type} (f : α → β) {m : List (String × α)}
    {k : String} {n : α} (hget : alGet m k = some n) {n' : α}
    (hf : f n' = f n) :
    (alSet m k n').map (fun kv => (kv.1, f kv.2)) =
      m.map (fun kv => (kv.1, f kv.2)) := by
  induction m with
  | nil => exact absurd hget (by simp [alGet])
  | cons kv rest ih =>
    obtain ⟨k', v'⟩ := kv
    rw [alGet_cons] at hget
    by_cases hk : k' = k
    · rw [if_pos hk] at hget
      injection hget with hv
      show ((if k' = k then (k, n') :: rest else
        (k', v') :: alSet rest k n').map fun kv => (kv.1, f kv.2)) = _
      rw [if_pos hk]
      simp only [List.map_cons]
      rw [hf, hv, hk]
    · rw [if_neg hk] at hget
      show ((if k' = k then (k, n') :: rest else
        (k', v') :: alSet rest k n').map fun kv => (kv.1, f kv.2)) = _
      rw [if_neg hk]
      simp only [List.map_cons]
      rw [ih hget]

theorem foldl_alDelete_self {α : Type} :
    ∀ m : List (String × α), (alKeys m).foldl alDelete m = [] := by
  intro m
  induction m with
  | nil => rfl
  | cons kv rest ih =>
    obtain ⟨k, v⟩ := kv
    rw [alKeys_cons, List.foldl_cons]
    rw [show alDelete ((k, v) :: rest) ((k, v) : String × α).1 = rest from by
      show (if k = k then rest else (k, v) :: alDelete rest k) = rest
      rw [if_pos rfl]]
    exact ih

theorem foldl_alSet_fresh {α β : Type} (key : α → String) (val : α → β) :
    ∀ (l : List α) (m : List (String × β)),
      (∀ a ∈ l, key a ∉ alKeys m) → (l.map key).Nodup →
      l.foldl (fun m a => alSet m (key a) (val a)) m =
        m ++ l.map (fun a => (key a, val a)) := by
  intro l
  induction l with
  | nil => intro m _ _; simp
  | cons a rest ih =>
    intro m hfresh hnd
    rw [List.foldl_cons, List.map_cons]
    rw [alSet_not_mem (hfresh a (List.mem_cons_self a rest)) (val a)]
    rw [List.map_cons] at hnd
    have hfr : ∀ b ∈ rest, key b ∉ alKeys (m ++ [(key a, val a)]) := by
      intro b hb
      rw [alKeys_append]
      simp only [List.mem_append, not_or]
      refine ⟨hfresh b (List.mem_cons_of_mem a hb), ?_⟩
      intro hmem
      have hba : key b = key a := by simpa [alKeys] using hmem
      exact (List.nodup_cons.mp hnd).1 (hba ▸ List.mem_map_of_mem key hb)
    rw [ih (m ++ [(key a, val a)]) hfr (List.nodup_cons.mp hnd).2]
    simp

theorem port_toJSON_make (pd : PortData) :
    Port.toJSONData (Port.make pd) = pd := rfl

theorem createPorts_eq (nid : String) (pds : List PortData)
    (hnd : (pds.map PortData.id).Nodup) :
    Node.createPorts nid pds =
      pds.map fun pd => (pd.id, Port.make { pd with nodeId := nid }) := by
  have h := foldl_alSet_fresh (fun pd : PortData => pd.id)
    (fun pd => Port.make { pd with nodeId := nid }) pds []
    (fun a _ => by simp [alKeys]) hnd
  rw [show Node.createPorts nid pds =
    pds.foldl (fun m pd => alSet m pd.id
      (Port.make { pd with nodeId := nid })) [] from rfl]
  rw [h]
  rfl

theorem portsPairData_make (nd : NodeData) :
    Node.portsPairData (Node.make nd) =
      (alValues (Node.make nd).inputs, alValues (Node.make nd).outputs) := rfl

theorem toJSONData_make (nd : NodeData)
    (hin : (nd.inputs.map PortData.id).Nodup)
    (hout : (nd.outputs.map PortData.id).Nodup) :
    Node.toJSONData (Node.make nd) = normNodeData nd := by
  have h1 : (Node.portsPairData (Node.make nd)).1.map Port.toJSONData =
      nd.inputs.map fun pd => { pd with nodeId := nd.id } := by
    rw [portsPairData_make]
    show (alValues (Node.createPorts nd.id nd.inputs)).map Port.toJSONData =
      _
    rw [createPorts_eq nd.id nd.inputs hin]
    simp only [alValues, List.map_map]
    rfl
  have h2 : (Node.portsPairData (Node.make nd)).2.map Port.toJSONData =
      nd.outputs.map fun pd => { pd with nodeId := nd.id } := by
    rw [portsPairData_make]
    show (alValues (Node.createPorts nd.id nd.outputs)).map Port.toJSONData =
      _
    rw [createPorts_eq nd.id nd.outputs hout]
    simp only [alValues, List.map_map]
    rfl
  unfold Node.toJSONData normNodeData
  rw [h1, h2]
  rfl

theorem normNodeData_idem (nd : NodeData) :
    normNodeData (normNodeData nd) = normNodeData nd := by
  unfold normNodeData
  simp only [List.map_map]
  rfl

theorem normNodeData_port_ids (nd : NodeData) :
    ((normNodeData nd).inputs.map PortData.id = nd.inputs.map PortData.id) ∧
    ((normNodeData nd).outputs.map PortData.id = nd.outputs.map PortData.id)
    := by
  unfold normNodeData
  constructor
  · rw [List.map_map]; rfl
  · rw [List.map_map]; rfl

theorem toJSONData_getBounds (n : Node) :
    Node.toJSONData (Node.getBounds n).1 = Node.toJSONData n := by
  unfold Node.getBounds
  rcases hcb : n.cacheBounds with _ | b
  · rfl
  · rfl

theorem toJSONData_getPosition (n : Node) :
    Node.toJSONData (Node.getPosition n).1 = Node.toJSONData n := by
  unfold Node.getPosition
  rcases hcp : n.cachePosition with _ | p
  · rfl
  · rfl

theorem alKeys_eq_sigMap_fst (m : List (String × Node)) :
    alKeys m = (sigMap m).map Prod.fst := by
  unfold sigMap alKeys
  rw [List.map_map]
  rfl

theorem getBoundsM_fresh {nodes : List (String × Node)} {e : Edge}
    (hcb : e.cacheBounds = none) (hcs : e.cacheSourcePosition = none)
    (hct : e.cacheTargetPosition = none)
    (hs : e.sourceNodeId ∈ alKeys nodes)
    (ht : e.targetNodeId ∈ alKeys nodes) :
    ∃ r, Edge.getBoundsM nodes e = some r ∧
      r.2.1.id = e.id ∧ r.2.1.sourcePort = e.sourcePort ∧
      r.2.1.targetPort = e.targetPort ∧ sigMap r.1 = sigMap nodes := by
  obtain ⟨n1, hn1⟩ := alGet_some_of_mem hs
  have hsrc : Edge.getSourcePositionM nodes e =
      some (alSet nodes e.sourceNodeId (Port.getPosition e.sourcePort n1).1,
        { e with cacheSourcePosition := some (Port.getPosition e.sourcePort n1).2 },
        (Port.getPosition e.sourcePort n1).2) := by
    simp only [Edge.getSourcePositionM, hcs, hn1]
  have hkeys1 : alKeys (alSet nodes e.sourceNodeId
      (Port.getPosition e.sourcePort n1).1) = alKeys nodes :=
    alKeys_alSet_mem hs _
  have ht1 : e.targetNodeId ∈ alKeys (alSet nodes e.sourceNodeId
      (Port.getPosition e.sourcePort n1).1) := by
    rw [hkeys1]
    exact ht
  obtain ⟨n2, hn2⟩ := alGet_some_of_mem ht1
  have htgt : Edge.getTargetPositionM
      (alSet nodes e.sourceNodeId (Port.getPosition e.sourcePort n1).1)
      { e with cacheSourcePosition := some (Port.getPosition e.sourcePort n1).2 } =
      some (alSet (alSet nodes e.sourceNodeId
          (Port.getPosition e.sourcePort n1).1) e.targetNodeId
          (Port.getPosition e.targetPort n2).1,
        { e with
            cacheSourcePosition := some (Port.getPosition e.sourcePort n1).2
            cacheTargetPosition := some (Port.getPosition e.targetPort n2).2 },
        (Port.getPosition e.targetPort n2).2) := by
    simp only [Edge.getTargetPositionM, hct, hn2]
  have hmain : Edge.getBoundsM nodes e = some
      (alSet (alSet nodes e.sourceNodeId
          (Port.getPosition e.sourcePort n1).1) e.targetNodeId
          (Port.getPosition e.targetPort n2).1,
       { e with
          cacheSourcePosition := some (Port.getPosition e.sourcePort n1).2
          cacheTargetPosition := some (Port.getPosition e.targetPort n2).2
          cacheBounds := some
            ⟨min (Port.getPosition e.sourcePort n1).2.x
               (Port.getPosition e.targetPort n2).2.x,
             min (Port.getPosition e.sourcePort n1).2.y
               (Port.getPosition e.targetPort n2).2.y,
             abs ((Port.getPosition e.targetPort n2).2.x -
               (Port.getPosition e.sourcePort n1).2.x),
             abs ((Port.getPosition e.targetPort n2).2.y -
               (Port.getPosition e.sourcePort n1).2.y)⟩ },
       ⟨min (Port.getPosition e.sourcePort n1).2.x
          (Port.getPosition e.targetPort n2).2.x,
        min (Port.getPosition e.sourcePort n1).2.y
          (Port.getPosition e.targetPort n2).2.y,
        abs ((Port.getPosition e.targetPort n2).2.x -
          (Port.getPosition e.sourcePort n1).2.x),
        abs ((Port.getPosition e.targetPort n2).2.y -
          (Port.getPosition e.sourcePort n1).2.y)⟩) := by
    rw [hcb] at htgt
    simp only [Edge.getBoundsM, hcb, hsrc, Option.bind, htgt]
  refine ⟨_, hmain, rfl, rfl, rfl, ?_⟩
  have hsig1 : sigMap (alSet nodes e.sourceNodeId
      (Port.getPosition e.sourcePort n1).1) = sigMap nodes :=
    map_pres_alSet Node.toJSONData hn1 (toJSONData_getPosition n1)
  have hsig2 : sigMap (alSet (alSet nodes e.sourceNodeId
      (Port.getPosition e.sourcePort n1).1) e.targetNodeId
      (Port.getPosition e.targetPort n2).1) =
      sigMap (alSet nodes e.sourceNodeId
        (Port.getPosition e.sourcePort n1).1) :=
    map_pres_alSet Node.toJSONData hn2 (toJSONData_getPosition n2)
  exact hsig2.trans hsig1

theorem edge_make_ok (ed : EdgeData) {pm : List (String × Port)}
    {nm : List (String × Node)} {p q : Port}
    (hp : alGet pm ed.sourcePortId = some p)
    (hq : alGet pm ed.targetPortId = some q)
    (hpt : p.type = .output) (hqt : q.type = .input)
    (hpn : p.nodeId ∈ alKeys nm) (hqn : q.nodeId ∈ alKeys nm) :
    Edge.make ed pm nm = .ok
      { id := ed.id, sourcePort := p, targetPort := q,
        sourceNodeId := p.nodeId, targetNodeId := q.nodeId,
        cacheBounds := none, cacheSourcePosition := none,
        cacheTargetPosition := none } := by
  obtain ⟨o1, ho1⟩ := alGet_some_of_mem hpn
  obtain ⟨o2, ho2⟩ := alGet_some_of_mem hqn
  simp only [Edge.make, hp, hq]
  rw [if_neg (fun h => by rw [hpt, hqt] at h; exact PortKind.noConfusion h)]
  rw [if_neg (fun h => by rw [hpt] at h; exact PortKind.noConfusion h)]
  simp only [ho1, ho2]

theorem alSet_pair_fst {s t : Port} (hne : s.id ≠ t.id) :
    alGet (alSet (alSet [] s.id s) t.id t) s.id = some s := by
  have h2 : alSet (alSet ([] : List (String × Port)) s.id s) t.id t =
      [(s.id, s), (t.id, t)] := by
    show (if s.id = t.id then (t.id, t) :: [] else
      (s.id, s) :: alSet [] t.id t) = _
    rw [if_neg hne]
    rfl
  rw [h2, alGet_cons, if_pos rfl]

theorem alSet_pair_snd {s t : Port} (hne : s.id ≠ t.id) :
    alGet (alSet (alSet [] s.id s) t.id t) t.id = some t := by
  have h2 : alSet (alSet ([] : List (String × Port)) s.id s) t.id t =
      [(s.id, s), (t.id, t)] := by
    show (if s.id = t.id then (t.id, t) :: [] else
      (s.id, s) :: alSet [] t.id t) = _
    rw [if_neg hne]
    rfl
  rw [h2, alGet_cons, if_neg (fun h => hne h), alGet_cons, if_pos rfl]

theorem removeNode_edges_nil {g : Graph} (hE : g.edges = []) (nid : String) :
    (Graph.removeNode g nid).1.nodes = alDelete g.nodes nid ∧
    (Graph.removeNode g nid).1.edges = [] := by
  rcases hget : alGet g.nodes nid with _ | n
  · constructor
    · simp only [Graph.removeNode, hget]
      exact (alDelete_of_not_mem (alGet_none_not_mem hget)).symm
    · simp only [Graph.removeNode, hget]
      exact hE
  · have h := removeNode_found hget
    refine ⟨h.1, ?_⟩
    rw [h.2, hE]
    rfl

theorem removeNodes_foldl_nil :
    ∀ (nids : List String) (acc : Graph × List GEvent),
      acc.1.edges = [] →
      ((nids.foldl (fun acc nid =>
        let r := Graph.removeNode acc.1 nid
        (r.1, acc.2 ++ r.2)) acc).1.nodes =
        nids.foldl alDelete acc.1.nodes ∧
      (nids.foldl (fun acc nid =>
        let r := Graph.removeNode acc.1 nid
        (r.1, acc.2 ++ r.2)) acc).1.edges = []) := by
  intro nids
  induction nids with
  | nil => exact fun acc h => ⟨rfl, h⟩
  | cons nid rest ih =>
    intro acc hE
    have h := removeNode_edges_nil hE nid
    have ihh := ih ((Graph.removeNode acc.1 nid).1,
      acc.2 ++ (Graph.removeNode acc.1 nid).2) h.2
    refine ⟨?_, ihh.2⟩
    exact ihh.1.trans
      (congrArg (fun m => List.foldl alDelete m rest) h.1)

theorem clearAll_maps (g : Graph) :
    (Graph.clearAll g).1.nodes = [] ∧ (Graph.clearAll g).1.edges = [] := by
  have h1 : (Graph.removeEdges { g with
      nodeQuadTree := g.nodeQuadTree.clear
      edgeQuadTree := g.edgeQuadTree.clear } (alKeys g.edges)).1.edges
      = [] :=
    (removeEdges_edges _ _).trans (foldl_alDelete_self g.edges)
  have h3 := removeNodes_foldl_nil
    (alKeys (Graph.removeEdges { g with
      nodeQuadTree := g.nodeQuadTree.clear
      edgeQuadTree := g.edgeQuadTree.clear } (alKeys g.edges)).1.nodes)
    ((Graph.removeEdges { g with
      nodeQuadTree := g.nodeQuadTree.clear
      edgeQuadTree := g.edgeQuadTree.clear } (alKeys g.edges)).1, [])
    h1
  exact ⟨h3.1.trans (foldl_alDelete_self _), h3.2⟩

theorem addNodes_foldl_spec :
    ∀ (ns : List Node) (acc : Graph × List GEvent),
      ((ns.foldl (fun acc n =>
        let r := Graph.addNode acc.1 n
        (r.1, acc.2 ++ r.2)) acc).1.nodes =
        ns.foldl (fun m n => alSet m n.id (reNode n)) acc.1.nodes ∧
      (ns.foldl (fun acc n =>
        let r := Graph.addNode acc.1 n
        (r.1, acc.2 ++ r.2)) acc).1.edges = acc.1.edges ∧
      (ns.foldl (fun acc n =>
        let r := Graph.addNode acc.1 n
        (r.1, acc.2 ++ r.2)) acc).1.id = acc.1.id ∧
      (ns.foldl (fun acc n =>
        let r := Graph.addNode acc.1 n
        (r.1, acc.2 ++ r.2)) acc).1.name = acc.1.name) := by
  intro ns
  induction ns with
  | nil => exact fun acc => ⟨rfl, rfl, rfl, rfl⟩
  | cons n rest ih =>
    intro acc
    have ihh := ih ((Graph.addNode acc.1 n).1,
      acc.2 ++ (Graph.addNode acc.1 n).2)
    exact ⟨ihh.1, ihh.2.1, ihh.2.2.1, ihh.2.2.2⟩

theorem addNodes_spec (g : Graph) (ns : List Node)
    (hfresh : ∀ n ∈ ns, n.id ∉ alKeys g.nodes)
    (hnd : (ns.map Node.id).Nodup) :
    (Graph.addNodes g ns).1.nodes =
      g.nodes ++ ns.map (fun n => (n.id, reNode n)) ∧
    (Graph.addNodes g ns).1.edges = g.edges ∧
    (Graph.addNodes g ns).1.id = g.id ∧
    (Graph.addNodes g ns).1.name = g.name := by
  have h := addNodes_foldl_spec ns (g, [])
  have h2 := foldl_alSet_fresh (fun n : Node => n.id) reNode ns g.nodes
    hfresh hnd
  exact ⟨h.1.trans h2, h.2.1, h.2.2.1, h.2.2.2⟩

theorem nodup_of_flatMap_mem {α β : Type} {f : α → List β} :
    ∀ {l : List α}, (l.flatMap f).Nodup → ∀ {a}, a ∈ l → (f a).Nodup := by
  intro l
  induction l with
  | nil => intro _ a ha; exact absurd ha (List.not_mem_nil _)
  | cons b rest ih =>
    intro hnd a ha
    rw [List.flatMap_cons, List.nodup_append] at hnd
    rcases List.mem_cons.mp ha with rfl | ha
    · exact hnd.1
    · exact ih hnd.2.1 ha

theorem flatMap_congr_mem {α β : Type} {f g : α → List β} :
    ∀ {l : List α}, (∀ a ∈ l, f a = g a) → l.flatMap f = l.flatMap g := by
  intro l
  induction l with
  | nil => intro _; rfl
  | cons b rest ih =>
    intro h
    rw [List.flatMap_cons, List.flatMap_cons,
      h b (List.mem_cons_self _ _),
      ih fun a ha => h a (List.mem_cons_of_mem _ ha)]

theorem map_congr_mem {α β : Type} {f g : α → β} :
    ∀ {l : List α}, (∀ a ∈ l, f a = g a) → l.map f = l.map g := by
  intro l
  induction l with
  | nil => intro _; rfl
  | cons b rest ih =>
    intro h
    rw [List.map_cons, List.map_cons, h b (List.mem_cons_self _ _),
      ih fun a ha => h a (List.mem_cons_of_mem _ ha)]

theorem nodePorts_reNode_make (nd : NodeData)
    (hin : (nd.inputs.map PortData.id).Nodup)
    (hout : (nd.outputs.map PortData.id).Nodup) :
    nodePorts (reNode (Node.make nd)) =
      (nd.inputs ++ nd.outputs).map (rePortD nd.id) := by
  have hjson : Node.toJSONData (Node.make nd) = normNodeData nd :=
    toJSONData_make nd hin hout
  have hin2 : ((normNodeData nd).inputs.map PortData.id).Nodup := by
    rw [(normNodeData_port_ids nd).1]
    exact hin
  have hout2 : ((normNodeData nd).outputs.map PortData.id).Nodup := by
    rw [(normNodeData_port_ids nd).2]
    exact hout
  unfold reNode
  rw [hjson]
  rw [show nodePorts (Node.getBounds (Node.make (normNodeData nd))).1 =
    alValues (Node.createPorts nd.id (normNodeData nd).inputs) ++
    alValues (Node.createPorts nd.id (normNodeData nd).outputs) from rfl]
  rw [createPorts_eq _ _ hin2, createPorts_eq _ _ hout2]
  simp only [alValues, normNodeData, List.map_map, List.map_append]
  rfl

theorem createPortMap_flatten :
    ∀ (nds : List Node) (m : List (String × Port)),
      nds.foldl (fun m n =>
        let pp := Node.portsPairData n
        let m1 := pp.1.foldl (fun m p => alSet m p.id p) m
        pp.2.foldl (fun m p => alSet m p.id p) m1) m =
      (nds.flatMap nodePorts).foldl (fun m p => alSet m p.id p) m := by
  intro nds
  induction nds with
  | nil => intro m; rfl
  | cons n rest ih =>
    intro m
    rw [List.foldl_cons, List.flatMap_cons, List.foldl_append]
    rw [show nodePorts n =
      (Node.portsPairData n).1 ++ (Node.portsPairData n).2 from rfl,
      List.foldl_append]
    exact ih _

theorem createPortMap_eq (g : Graph)
    (hnd : (((alValues g.nodes).flatMap nodePorts).map Port.id).Nodup) :
    Graph.createPortMap g =
      ((alValues g.nodes).flatMap nodePorts).map fun p => (p.id, p) := by
  unfold Graph.createPortMap
  rw [createPortMap_flatten]
  rw [foldl_alSet_fresh (fun p : Port => p.id) (fun p => p)
    ((alValues g.nodes).flatMap nodePorts) [] (fun a _ => by simp [alKeys])
    hnd]
  rfl

theorem pm_lookup {g : Graph} {p : Port}
    (hnd : (((alValues g.nodes).flatMap nodePorts).map Port.id).Nodup)
    (hp : p ∈ (alValues g.nodes).flatMap nodePorts) :
    alGet (Graph.createPortMap g) p.id = some p := by
  rw [createPortMap_eq g hnd]
  apply alGet_of_mem_nodup
    (List.mem_map_of_mem (fun p : Port => (p.id, p)) hp)
  rw [show alKeys (((alValues g.nodes).flatMap nodePorts).map
    fun p => (p.id, p)) =
    ((alValues g.nodes).flatMap nodePorts).map Port.id from by
    unfold alKeys
    rw [List.map_map]
    rfl]
  exact hnd

theorem resolveEdgePorts_spec {pm : List (String × Port)}
    {nm : List (String × Node)} :
    ∀ (eds : List EdgeData),
      (∀ ed ∈ eds, ∃ p q,
        alGet pm ed.sourcePortId = some p ∧
        alGet pm ed.targetPortId = some q ∧
        p.id = ed.sourcePortId ∧ q.id = ed.targetPortId ∧
        p.type = PortKind.output ∧ q.type = PortKind.input ∧
        p.nodeId ∈ alKeys nm ∧ q.nodeId ∈ alKeys nm) →
      ∃ pairs, Graph.resolveEdgePorts pm nm eds = .ok pairs ∧
        pairs.map (fun pr => (pr.1.id, pr.2.id)) =
          eds.map (fun ed => (ed.sourcePortId, ed.targetPortId)) ∧
        ∀ pr ∈ pairs, portOK (alKeys nm) pr := by
  intro eds
  induction eds with
  | nil =>
    exact fun _ => ⟨[], rfl, rfl, fun pr h => absurd h (List.not_mem_nil _)⟩
  | cons ed rest ih =>
    intro hgood
    obtain ⟨p, q, hp, hq, hpid, hqid, hpt, hqt, hpn, hqn⟩ :=
      hgood ed (List.mem_cons_self _ _)
    obtain ⟨pairs, hps, hmap, hok⟩ :=
      ih fun ed2 h => hgood ed2 (List.mem_cons_of_mem _ h)
    have hne : p.id ≠ q.id := by
      intro hid
      have hsame : ed.sourcePortId = ed.targetPortId := by
        rw [← hpid, hid, hqid]
      rw [hsame, hq] at hp
      injection hp with hpq
      rw [← hpq, hqt] at hpt
      exact PortKind.noConfusion hpt
    refine ⟨(p, q) :: pairs, ?_, ?_, ?_⟩
    · rw [show Graph.resolveEdgePorts pm nm (ed :: rest) =
        (match Edge.make ed pm nm with
         | .error msg => .error msg
         | .ok edge =>
           match Graph.resolveEdgePorts pm nm rest with
           | .error msg => .error msg
           | .ok pairs =>
             .ok ((edge.sourcePort, edge.targetPort) :: pairs)) from rfl]
      rw [edge_make_ok ed hp hq hpt hqt hpn hqn, hps]
    · simp only [List.map_cons, hmap, hpid, hqid]
    · intro pr hpr
      rcases List.mem_cons.mp hpr with rfl | hpr
      · exact ⟨hpt, hqt, hne, hpn, hqn⟩
      · exact hok pr hpr

theorem addEdge_spec {g : Graph} {s t : Port}
    (hok : portOK (alKeys g.nodes) (s, t)) :
    sigMap (Graph.addEdge g s t).1.nodes = sigMap g.nodes ∧
    (Graph.addEdge g s t).1.id = g.id ∧
    (Graph.addEdge g s t).1.name = g.name ∧
    ∃ e2, (Graph.addEdge g s t).1.edges =
      alSet g.edges (canonPairId (s, t)) e2 ∧
      e2.sourcePort = s ∧ e2.targetPort = t := by
  obtain ⟨hst, htt, hne, hsn, htn⟩ := hok
  have hmk := edge_make_ok
    { id := "edge-" ++ s.id ++ "-" ++ t.id, sourcePortId := s.id, targetPortId := t.id }
    (alSet_pair_fst hne) (alSet_pair_snd hne) hst htt hsn htn
  obtain ⟨r, hr, hrid, hrsp, hrtp, hrsig⟩ := getBoundsM_fresh
    (e := { id := "edge-" ++ s.id ++ "-" ++ t.id, sourcePort := s, targetPort := t, sourceNodeId := s.nodeId, targetNodeId := t.nodeId, cacheBounds := none, cacheSourcePosition := none, cacheTargetPosition := none })
    rfl rfl rfl hsn htn
  simp only [Graph.addEdge, Graph.createEdge, hmk, hr]
  refine ⟨hrsig, trivial, trivial, r.2.1, ?_, hrsp, hrtp⟩
  rw [alSet_alSet_same]
  rfl

theorem addEdges_foldl_spec :
    ∀ (pairs : List (Port × Port)) (acc : Graph × List Edge × List GEvent),
      (∀ pr ∈ pairs, portOK (alKeys acc.1.nodes) pr) →
      (alKeys acc.1.edges ++ pairs.map canonPairId).Nodup →
      (sigMap (pairs.foldl (fun acc pr =>
          let r := Graph.addEdge acc.1 pr.1 pr.2
          (r.1, acc.2.1 ++ (r.2.1.map fun e => [e]).getD [],
            acc.2.2 ++ r.2.2)) acc).1.nodes = sigMap acc.1.nodes ∧
      alKeys (pairs.foldl (fun acc pr =>
          let r := Graph.addEdge acc.1 pr.1 pr.2
          (r.1, acc.2.1 ++ (r.2.1.map fun e => [e]).getD [],
            acc.2.2 ++ r.2.2)) acc).1.edges =
        alKeys acc.1.edges ++ pairs.map canonPairId ∧
      (alValues (pairs.foldl (fun acc pr =>
          let r := Graph.addEdge acc.1 pr.1 pr.2
          (r.1, acc.2.1 ++ (r.2.1.map fun e => [e]).getD [],
            acc.2.2 ++ r.2.2)) acc).1.edges).map connOf =
        (alValues acc.1.edges).map connOf ++
          pairs.map (fun pr => (pr.1.id, pr.2.id)) ∧
      (pairs.foldl (fun acc pr =>
          let r := Graph.addEdge acc.1 pr.1 pr.2
          (r.1, acc.2.1 ++ (r.2.1.map fun e => [e]).getD [],
            acc.2.2 ++ r.2.2)) acc).1.id = acc.1.id ∧
      (pairs.foldl (fun acc pr =>
          let r := Graph.addEdge acc.1 pr.1 pr.2
          (r.1, acc.2.1 ++ (r.2.1.map fun e => [e]).getD [],
            acc.2.2 ++ r.2.2)) acc).1.name = acc.1.name) := by
  intro pairs
  induction pairs with
  | nil =>
    intro acc _ _
    refine ⟨rfl, ?_, ?_, rfl, rfl⟩
    · rw [List.map_nil, List.append_nil]
      rfl
    · rw [List.map_nil, List.append_nil]
      rfl
  | cons pr rest ih =>
    intro acc hOK hnd
    have hok0 : portOK (alKeys acc.1.nodes) (pr.1, pr.2) :=
      hOK pr (List.mem_cons_self _ _)
    obtain ⟨hsig, hid, hname, e2, hed, hsp, htp⟩ := addEdge_spec hok0
    have hkeys : alKeys (Graph.addEdge acc.1 pr.1 pr.2).1.nodes =
        alKeys acc.1.nodes := by
      rw [alKeys_eq_sigMap_fst, alKeys_eq_sigMap_fst, hsig]
    rw [List.map_cons] at hnd
    have hcfresh : canonPairId (pr.1, pr.2) ∉ alKeys acc.1.edges :=
      fun hmem => (List.nodup_append.mp hnd).2.2 hmem
        (List.mem_cons_self _ _)
    have hedapp : (Graph.addEdge acc.1 pr.1 pr.2).1.edges =
        acc.1.edges ++ [(canonPairId (pr.1, pr.2), e2)] := by
      rw [hed, alSet_not_mem hcfresh]
    have hekeys : alKeys (Graph.addEdge acc.1 pr.1 pr.2).1.edges =
        alKeys acc.1.edges ++ [canonPairId (pr.1, pr.2)] := by
      rw [hedapp, alKeys_append]
      rfl
    have hnd2 : (alKeys (Graph.addEdge acc.1 pr.1 pr.2).1.edges ++
        rest.map canonPairId).Nodup := by
      rw [hekeys, List.append_assoc, List.singleton_append]
      exact hnd
    have ihh := ih ((Graph.addEdge acc.1 pr.1 pr.2).1,
      acc.2.1 ++ (((Graph.addEdge acc.1 pr.1 pr.2).2.1.map
        fun e => [e]).getD []),
      acc.2.2 ++ (Graph.addEdge acc.1 pr.1 pr.2).2.2)
      (fun pr2 h2 => by
        show portOK (alKeys (Graph.addEdge acc.1 pr.1 pr.2).1.nodes) pr2
        rw [hkeys]
        exact hOK pr2 (List.mem_cons_of_mem _ h2))
      hnd2
    refine ⟨ihh.1.trans hsig, ?_, ?_, ihh.2.2.2.1.trans hid,
      ihh.2.2.2.2.trans hname⟩
    · show alKeys ((rest.foldl (fun acc pr =>
          let r := Graph.addEdge acc.1 pr.1 pr.2
          (r.1, acc.2.1 ++ (r.2.1.map fun e => [e]).getD [],
            acc.2.2 ++ r.2.2)) ((Graph.addEdge acc.1 pr.1 pr.2).1,
          acc.2.1 ++ (((Graph.addEdge acc.1 pr.1 pr.2).2.1.map
            fun e => [e]).getD []),
          acc.2.2 ++ (Graph.addEdge acc.1 pr.1 pr.2).2.2)).1.edges) =
        alKeys acc.1.edges ++ (pr :: rest).map canonPairId
      rw [ihh.2.1, hekeys, List.map_cons, List.append_assoc,
        List.singleton_append]
    · show (alValues ((rest.foldl (fun acc pr =>
          let r := Graph.addEdge acc.1 pr.1 pr.2
          (r.1, acc.2.1 ++ (r.2.1.map fun e => [e]).getD [],
            acc.2.2 ++ r.2.2)) ((Graph.addEdge acc.1 pr.1 pr.2).1,
          acc.2.1 ++ (((Graph.addEdge acc.1 pr.1 pr.2).2.1.map
            fun e => [e]).getD []),
          acc.2.2 ++ (Graph.addEdge acc.1 pr.1 pr.2).2.2)).1.edges)).map
          connOf =
        (alValues acc.1.edges).map connOf ++
          (pr :: rest).map fun pr => (pr.1.id, pr.2.id)
      rw [ihh.2.2.1]
      rw [show alValues (Graph.addEdge acc.1 pr.1 pr.2).1.edges =
          alValues acc.1.edges ++ [e2] from by
        rw [hedapp]
        unfold alValues
        rw [List.map_append]
        rfl]
      rw [List.map_append, List.map_cons, List.append_assoc]
      rw [show connOf e2 = (pr.1.id, pr.2.id) from by
        unfold connOf
        rw [hsp, htp]]
      simp only [List.map_nil, List.nil_append, List.map_cons,
        List.singleton_append]

theorem initializeGraph_spec {g : Graph} (hn0 : g.nodes = [])
    (he0 : g.edges = []) {data : GraphData}
    (hndID : (data.nodes.map NodeData.id).Nodup)
    (hndP : (data.nodes.flatMap fun nd =>
      (nd.inputs ++ nd.outputs).map PortData.id).Nodup)
    (hedges : ∀ ed ∈ data.edges,
      (∃ nd ∈ data.nodes, ∃ pd ∈ nd.inputs ++ nd.outputs,
        pd.id = ed.sourcePortId ∧ pd.type = PortKind.output) ∧
      (∃ nd ∈ data.nodes, ∃ pd ∈ nd.inputs ++ nd.outputs,
        pd.id = ed.targetPortId ∧ pd.type = PortKind.input))
    (hcanon : (data.edges.map canonEdgeDataId).Nodup) :
    ∃ g2 ev, Graph.initializeGraph g data = .ok (g2, ev) ∧
      sigMap g2.nodes = data.nodes.map (fun nd => (nd.id, normNodeData nd)) ∧
      (alValues g2.edges).map connOf =
        data.edges.map (fun ed => (ed.sourcePortId, ed.targetPortId)) ∧
      g2.id = g.id ∧ g2.name = g.name := by
  have haddN := addNodes_spec g (data.nodes.map Node.make)
    (fun n _ => by rw [hn0]; simp [alKeys])
    (by rw [List.map_map]; exact hndID)
  have hnodes1 : (Graph.addNodes g (data.nodes.map Node.make)).1.nodes =
      data.nodes.map (fun nd => (nd.id, reNode (Node.make nd))) := by
    rw [haddN.1, hn0, List.nil_append, List.map_map]
    rfl
  have hchunk : ∀ nd ∈ data.nodes,
      (nd.inputs.map PortData.id).Nodup ∧
      (nd.outputs.map PortData.id).Nodup := by
    intro nd hnd
    have h := nodup_of_flatMap_mem hndP hnd
    rw [List.map_append, List.nodup_append] at h
    exact ⟨h.1, h.2.1⟩
  have hsigPer : ∀ nd ∈ data.nodes,
      Node.toJSONData (reNode (Node.make nd)) = normNodeData nd := by
    intro nd hnd
    obtain ⟨hin, hout⟩ := hchunk nd hnd
    show Node.toJSONData
      (Node.getBounds (Node.make (Node.toJSONData (Node.make nd)))).1 =
      normNodeData nd
    rw [toJSONData_getBounds, toJSONData_make nd hin hout]
    rw [toJSONData_make (normNodeData nd)
      (by rw [(normNodeData_port_ids nd).1]; exact hin)
      (by rw [(normNodeData_port_ids nd).2]; exact hout)]
    exact normNodeData_idem nd
  have hportsPer : ∀ nd ∈ data.nodes,
      nodePorts (reNode (Node.make nd)) =
        (nd.inputs ++ nd.outputs).map (rePortD nd.id) := by
    intro nd hnd
    obtain ⟨hin, hout⟩ := hchunk nd hnd
    exact nodePorts_reNode_make nd hin hout
  have hsig1 : sigMap (Graph.addNodes g (data.nodes.map Node.make)).1.nodes =
      data.nodes.map (fun nd => (nd.id, normNodeData nd)) := by
    rw [show sigMap (Graph.addNodes g (data.nodes.map Node.make)).1.nodes =
      ((Graph.addNodes g (data.nodes.map Node.make)).1.nodes).map
        (fun kv => (kv.1, Node.toJSONData kv.2)) from rfl]
    rw [hnodes1, List.map_map]
    apply map_congr_mem
    intro nd hnd
    show (nd.id, Node.toJSONData (reNode (Node.make nd))) =
      (nd.id, normNodeData nd)
    rw [hsigPer nd hnd]
  have hkeys1 : alKeys (Graph.addNodes g (data.nodes.map Node.make)).1.nodes
      = data.nodes.map NodeData.id := by
    rw [alKeys_eq_sigMap_fst, hsig1, List.map_map]
    rfl
  have hvals1 : alValues (Graph.addNodes g (data.nodes.map Node.make)).1.nodes
      = data.nodes.map (fun nd => reNode (Node.make nd)) := by
    rw [show alValues (Graph.addNodes g (data.nodes.map Node.make)).1.nodes =
      ((Graph.addNodes g (data.nodes.map Node.make)).1.nodes).map Prod.snd
      from rfl]
    rw [hnodes1, List.map_map]
    rfl
  have hflat : (alValues
      (Graph.addNodes g (data.nodes.map Node.make)).1.nodes).flatMap
      nodePorts =
      data.nodes.flatMap fun nd =>
        (nd.inputs ++ nd.outputs).map (rePortD nd.id) := by
    rw [hvals1, List.flatMap_map]
    exact flatMap_congr_mem hportsPer
  have hflatids : ((alValues
      (Graph.addNodes g (data.nodes.map Node.make)).1.nodes).flatMap
      nodePorts).map Port.id =
      data.nodes.flatMap fun nd =>
        (nd.inputs ++ nd.outputs).map PortData.id := by
    rw [hflat, List.map_flatMap]
    apply flatMap_congr_mem
    intro nd _
    rw [List.map_map]
    rfl
  have hpmnd : (((alValues
      (Graph.addNodes g (data.nodes.map Node.make)).1.nodes).flatMap
      nodePorts).map Port.id).Nodup := by
    rw [hflatids]
    exact hndP
  have hgood : ∀ ed ∈ data.edges, ∃ p q,
      alGet (Graph.createPortMap
        (Graph.addNodes g (data.nodes.map Node.make)).1) ed.sourcePortId =
        some p ∧
      alGet (Graph.createPortMap
        (Graph.addNodes g (data.nodes.map Node.make)).1) ed.targetPortId =
        some q ∧
      p.id = ed.sourcePortId ∧ q.id = ed.targetPortId ∧
      p.type = PortKind.output ∧ q.type = PortKind.input ∧
      p.nodeId ∈ alKeys
        (Graph.addNodes g (data.nodes.map Node.make)).1.nodes ∧
      q.nodeId ∈ alKeys
        (Graph.addNodes g (data.nodes.map Node.make)).1.nodes := by
    intro ed hed
    obtain ⟨⟨nds, hnds, pds, hpds, hpdsid, hpdst⟩,
      ⟨ndt, hndt, pdt, hpdt, hpdtid, hpdtt⟩⟩ := hedges ed hed
    have hpFlat : rePortD nds.id pds ∈ (alValues
        (Graph.addNodes g (data.nodes.map Node.make)).1.nodes).flatMap
        nodePorts := by
      rw [hflat]
      exact List.mem_flatMap.mpr
        ⟨nds, hnds, List.mem_map_of_mem (rePortD nds.id) hpds⟩
    have hqFlat : rePortD ndt.id pdt ∈ (alValues
        (Graph.addNodes g (data.nodes.map Node.make)).1.nodes).flatMap
        nodePorts := by
      rw [hflat]
      exact List.mem_flatMap.mpr
        ⟨ndt, hndt, List.mem_map_of_mem (rePortD ndt.id) hpdt⟩
    have hp := pm_lookup hpmnd hpFlat
    have hq := pm_lookup hpmnd hqFlat
    have hpid2 : (rePortD nds.id pds).id = ed.sourcePortId := hpdsid
    have hqid2 : (rePortD ndt.id pdt).id = ed.targetPortId := hpdtid
    rw [hpid2] at hp
    rw [hqid2] at hq
    refine ⟨rePortD nds.id pds, rePortD ndt.id pdt, hp, hq, hpdsid, hpdtid,
      hpdst, hpdtt, ?_, ?_⟩
    · rw [hkeys1]
      exact List.mem_map_of_mem NodeData.id hnds
    · rw [hkeys1]
      exact List.mem_map_of_mem NodeData.id hndt
  obtain ⟨pairs, hprun, hmapids, hportOK⟩ :=
    resolveEdgePorts_spec data.edges hgood
  have hcanonP : pairs.map canonPairId = data.edges.map canonEdgeDataId := by
    rw [show pairs.map canonPairId =
      (pairs.map (fun pr => (pr.1.id, pr.2.id))).map
        (fun x => "edge-" ++ x.1 ++ "-" ++ x.2) from by
      rw [List.map_map]
      rfl]
    rw [hmapids, List.map_map]
    rfl
  have hnd2 : (alKeys (Graph.addNodes g
      (data.nodes.map Node.make)).1.edges ++ pairs.map canonPairId).Nodup
      := by
    rw [haddN.2.1, he0, hcanonP]
    show (([] : List String) ++ data.edges.map canonEdgeDataId).Nodup
    rw [List.nil_append]
    exact hcanon
  have haddE := addEdges_foldl_spec pairs
    ((Graph.addNodes g (data.nodes.map Node.make)).1, [], []) hportOK hnd2
  have hrun : Graph.initializeGraph g data = .ok
      ((Graph.addEdges (Graph.addNodes g (data.nodes.map Node.make)).1
        pairs).1,
       (Graph.addNodes g (data.nodes.map Node.make)).2 ++
       (Graph.addEdges (Graph.addNodes g (data.nodes.map Node.make)).1
        pairs).2.2) := by
    simp only [Graph.initializeGraph, hprun]
  refine ⟨_, _, hrun, ?_, ?_, ?_, ?_⟩
  · exact haddE.1.trans hsig1
  · have h := haddE.2.2.1
    rw [haddN.2.1, he0] at h
    rw [show alValues ([] : List (String × Edge)) = [] from rfl,
      List.map_nil, List.nil_append] at h
    exact h.trans hmapids
  · exact haddE.2.2.2.1.trans haddN.2.2.1
  · exact haddE.2.2.2.2.trans haddN.2.2.2

theorem normNodeData_toJSONData {g : Graph} {n : Node}
    (hports : ∀ n ∈ alValues g.nodes,
      Node.portsPairData n = (alValues n.inputs, alValues n.outputs) ∧
      ∀ p ∈ alValues n.inputs ++ alValues n.outputs, p.nodeId = n.id)
    (hn : n ∈ alValues g.nodes) :
    normNodeData (Node.toJSONData n) = Node.toJSONData n := by
  have hpp := (hports n hn).1
  have hpo := (hports n hn).2
  have hIn0 : ((alValues n.inputs).map Port.toJSONData).map
      (fun pd => ({ pd with nodeId := n.id } : PortData)) =
      (alValues n.inputs).map Port.toJSONData := by
    rw [List.map_map]
    apply map_congr_mem
    intro p hp
    show ({ Port.toJSONData p with nodeId := n.id } : PortData) =
      Port.toJSONData p
    rw [← hpo p (List.mem_append_left _ hp)]
    rfl
  have hOut0 : ((alValues n.outputs).map Port.toJSONData).map
      (fun pd => ({ pd with nodeId := n.id } : PortData)) =
      (alValues n.outputs).map Port.toJSONData := by
    rw [List.map_map]
    apply map_congr_mem
    intro p hp
    show ({ Port.toJSONData p with nodeId := n.id } : PortData) =
      Port.toJSONData p
    rw [← hpo p (List.mem_append_right _ hp)]
    rfl
  have hIn : ((Node.toJSONData n).inputs.map
      fun pd => ({ pd with nodeId := (Node.toJSONData n).id } : PortData)) =
      (Node.toJSONData n).inputs := by
    show (((Node.portsPairData n).1.map Port.toJSONData).map
      fun pd => ({ pd with nodeId := n.id } : PortData)) =
      (Node.portsPairData n).1.map Port.toJSONData
    rw [hpp]
    exact hIn0
  have hOut : ((Node.toJSONData n).outputs.map
      fun pd => ({ pd with nodeId := (Node.toJSONData n).id } : PortData)) =
      (Node.toJSONData n).outputs := by
    show (((Node.portsPairData n).2.map Port.toJSONData).map
      fun pd => ({ pd with nodeId := n.id } : PortData)) =
      (Node.portsPairData n).2.map Port.toJSONData
    rw [hpp]
    exact hOut0
  unfold normNodeData
  rw [hIn, hOut]

unseal Rat.add Rat.mul Rat.inv Rat.sub in
/-- C4 (amended): for every graph whose maps satisfy the invariants the
Graph class itself maintains — distinct node ids, distinct port ids,
consistent port caches and owner ids — and ALL of whose edges reference
ports attached to stored nodes (source an output, target an input) with
collision-free canonical ids, loading `toJSON()` through `fromJSON`
succeeds and reproduces an equivalent graph: the same node snapshots (ids,
positions and ports) and the same edge connectivity, in order.  (Without
the attached-ports condition the reload can throw: see the rogue-port
counterexample.) -/
theorem claim_C4_roundtrip {g : Graph}
    (hnd : ((alValues g.nodes).map Node.id).Nodup)
    (hports : ∀ n ∈ alValues g.nodes,
      Node.portsPairData n = (alValues n.inputs, alValues n.outputs) ∧
      ∀ p ∈ alValues n.inputs ++ alValues n.outputs, p.nodeId = n.id)
    (hpid : ((alValues g.nodes).flatMap fun n =>
      (alValues n.inputs ++ alValues n.outputs).map Port.id).Nodup)
    (hedges : ∀ e ∈ alValues g.edges,
      (∃ n ∈ alValues g.nodes,
        e.sourcePort ∈ alValues n.inputs ++ alValues n.outputs) ∧
      (∃ n ∈ alValues g.nodes,
        e.targetPort ∈ alValues n.inputs ++ alValues n.outputs) ∧
      e.sourcePort.type = PortKind.output ∧
      e.targetPort.type = PortKind.input)
    (hcanon : ((alValues g.edges).map fun e =>
      "edge-" ++ e.sourcePort.id ++ "-" ++ e.targetPort.id).Nodup) :
    ∃ g2 ev, Graph.loadJSON g (Graph.toJSONData g) = .ok (g2, ev) ∧
      (alValues g2.nodes).map Node.toJSONData =
        (alValues g.nodes).map Node.toJSONData ∧
      (alValues g2.edges).map connOf = (alValues g.edges).map connOf := by
  have hD1 : ((Graph.toJSONData g).nodes.map NodeData.id).Nodup := by
    show ((((alValues g.nodes).map Node.toJSONData)).map NodeData.id).Nodup
    rw [List.map_map]
    exact hnd
  have hD2 : ((Graph.toJSONData g).nodes.flatMap fun nd =>
      (nd.inputs ++ nd.outputs).map PortData.id).Nodup := by
    show ((((alValues g.nodes).map Node.toJSONData)).flatMap fun nd =>
      (nd.inputs ++ nd.outputs).map PortData.id).Nodup
    rw [List.flatMap_map]
    rw [flatMap_congr_mem (g := fun n =>
      (alValues n.inputs ++ alValues n.outputs).map Port.id) ?_]
    · exact hpid
    · intro n hn
      show (((Node.portsPairData n).1.map Port.toJSONData ++
        (Node.portsPairData n).2.map Port.toJSONData).map PortData.id) =
        (alValues n.inputs ++ alValues n.outputs).map Port.id
      rw [(hports n hn).1]
      rw [show ((alValues n.inputs, alValues n.outputs).1.map
          Port.toJSONData ++ (alValues n.inputs,
          alValues n.outputs).2.map Port.toJSONData) =
        ((alValues n.inputs).map Port.toJSONData ++
          (alValues n.outputs).map Port.toJSONData) from rfl]
      rw [List.map_append, List.map_map, List.map_map, List.map_append]
      rfl
  have hD3 : ∀ ed ∈ (Graph.toJSONData g).edges,
      (∃ nd ∈ (Graph.toJSONData g).nodes, ∃ pd ∈ nd.inputs ++ nd.outputs,
        pd.id = ed.sourcePortId ∧ pd.type = PortKind.output) ∧
      (∃ nd ∈ (Graph.toJSONData g).nodes, ∃ pd ∈ nd.inputs ++ nd.outputs,
        pd.id = ed.targetPortId ∧ pd.type = PortKind.input) := by
    intro ed hed
    obtain ⟨e, he, rfl⟩ := List.mem_map.mp hed
    obtain ⟨⟨ns, hns, hsmem⟩, ⟨nt, hnt, htmem⟩, hst, htt⟩ := hedges e he
    constructor
    · refine ⟨Node.toJSONData ns, List.mem_map_of_mem Node.toJSONData hns,
        Port.toJSONData e.sourcePort, ?_, rfl, hst⟩
      show Port.toJSONData e.sourcePort ∈
        (Node.portsPairData ns).1.map Port.toJSONData ++
        (Node.portsPairData ns).2.map Port.toJSONData
      rw [(hports ns hns).1]
      rw [show ((alValues ns.inputs, alValues ns.outputs).1.map
          Port.toJSONData ++ (alValues ns.inputs,
          alValues ns.outputs).2.map Port.toJSONData) =
        ((alValues ns.inputs ++ alValues ns.outputs).map Port.toJSONData)
        from by rw [List.map_append]]
      exact List.mem_map_of_mem Port.toJSONData hsmem
    · refine ⟨Node.toJSONData nt, List.mem_map_of_mem Node.toJSONData hnt,
        Port.toJSONData e.targetPort, ?_, rfl, htt⟩
      show Port.toJSONData e.targetPort ∈
        (Node.portsPairData nt).1.map Port.toJSONData ++
        (Node.portsPairData nt).2.map Port.toJSONData
      rw [(hports nt hnt).1]
      rw [show ((alValues nt.inputs, alValues nt.outputs).1.map
          Port.toJSONData ++ (alValues nt.inputs,
          alValues nt.outputs).2.map Port.toJSONData) =
        ((alValues nt.inputs ++ alValues nt.outputs).map Port.toJSONData)
        from by rw [List.map_append]]
      exact List.mem_map_of_mem Port.toJSONData htmem
  have hD4 : ((Graph.toJSONData g).edges.map canonEdgeDataId).Nodup := by
    show (((alValues g.edges).map Edge.toJSONData).map canonEdgeDataId).Nodup
    rw [List.map_map]
    exact hcanon
  have hclr := clearAll_maps g
  have hn1 : ({ (Graph.clearAll g).1 with
      id := (Graph.toJSONData g).id
      name := (Graph.toJSONData g).name } : Graph).nodes = [] := hclr.1
  have he1 : ({ (Graph.clearAll g).1 with
      id := (Graph.toJSONData g).id
      name := (Graph.toJSONData g).name } : Graph).edges = [] := hclr.2
  obtain ⟨g2, ev, hrun2, hsigN, hconnE, hid2, hname2⟩ :=
    initializeGraph_spec hn1 he1 hD1 hD2 hD3 hD4
  have hload : Graph.loadJSON g (Graph.toJSONData g) =
      .ok (g2, (Graph.clearAll g).2 ++ ev) := by
    simp only [Graph.loadJSON, hrun2]
  refine ⟨g2, (Graph.clearAll g).2 ++ ev, hload, ?_, ?_⟩
  · have hv : (alValues g2.nodes).map Node.toJSONData =
        (sigMap g2.nodes).map Prod.snd := by
      unfold sigMap alValues
      rw [List.map_map, List.map_map]
      rfl
    rw [hv, hsigN, List.map_map]
    rw [show ((Graph.toJSONData g).nodes) =
      (alValues g.nodes).map Node.toJSONData from rfl, List.map_map]
    apply map_congr_mem
    intro n hn
    show normNodeData (Node.toJSONData n) = Node.toJSONData n
    exact normNodeData_toJSONData hports hn
  · rw [hconnE]
    rw [show ((Graph.toJSONData g).edges) =
      (alValues g.edges).map Edge.toJSONData from rfl, List.map_map]
    rfl

/-- `removeNode` keeps the invariant unconditionally. -/
theorem nodeInv_removeNode {g : Graph} (nid : String)
    (hinv : Graph.nodeInv g) : Graph.nodeInv (Graph.removeNode g nid).1 := by
  obtain ⟨hwf, hitems, hnd⟩ := hinv
  rcases hget : alGet g.nodes nid with _ | n
  · simp only [Graph.removeNode, hget]
    exact ⟨hwf, hitems, hnd⟩
  · obtain ⟨l1, xv, l2, hm, hnotin⟩ := mem_keys_split (alGet_mem_keys hget)
    have hkeys : alKeys g.nodes = alKeys l1 ++ nid :: alKeys l2 := by
      rw [hm, alKeys_append, alKeys_cons]
    have hnid2 : nid ∉ alKeys l2 := by
      rw [hkeys] at hnd
      have h2 := (List.nodup_append.mp hnd).2.1
      exact (List.nodup_cons.mp h2).1
    have hnd12 : (alKeys (l1 ++ l2)).Nodup := by
      rw [hkeys] at hnd
      rw [alKeys_append]
      rcases List.nodup_append.mp hnd with ⟨h1, h2, hdisj⟩
      refine List.nodup_append.mpr ⟨h1, (List.nodup_cons.mp h2).2, ?_⟩
      intro a ha hb
      exact hdisj ha (List.mem_cons_of_mem _ hb)
    have hsplitM := map_mkItem_middle l1 l2 nid xv
    have hmem : QTItem.mk nid (Node.boundsRect xv) ∈
        QuadTree.allItems g.nodeQuadTree := by
      have hin : QTItem.mk nid (Node.boundsRect xv) ∈
          QuadTree.itemsM g.nodeQuadTree := by
        rw [hitems, hm, hsplitM]
        exact Multiset.mem_cons_self _ _
      rwa [QuadTree.itemsM, Multiset.mem_coe] at hin
    rcases hr : (QuadTree.remove g.nodeQuadTree nid).2 with _ | _
    · exact absurd rfl
        ((QuadTree.remove_fail g.nodeQuadTree nid hr).2 _ hmem)
    · obtain ⟨bb, hbb⟩ := QuadTree.remove_found g.nodeQuadTree nid hr
      have hX : QuadTree.itemsM (QuadTree.remove g.nodeQuadTree nid).1 =
          (((l1 ++ l2).map fun kv => QTItem.mk kv.1 (Node.boundsRect kv.2)) :
            Multiset QTItem) := by
        refine cons_cancel_by_id (a := ⟨nid, bb⟩)
          (b := ⟨nid, Node.boundsRect xv⟩) ?_ rfl ?_
        · rw [← hbb, hitems, hm, hsplitM]
        · intro it hmem2 hid
          have hk := itemsM_id_mem_keys hmem2
          rw [alKeys_append] at hk
          rw [show (QTItem.mk nid (Node.boundsRect xv)).id = nid from rfl] at hid
          rw [hid] at hk
          rcases List.mem_append.mp hk with hh | hh
          · exact hnotin hh
          · exact hnid2 hh
      simp only [Graph.removeNode, hget, Graph.nodeInv]
      have hfr := removeEdges_nodes_frame
        { g with nodeQuadTree := (QuadTree.remove g.nodeQuadTree nid).1 }
        (((alValues g.edges).filter fun e =>
          e.sourcePort.nodeId = nid ∨ e.targetPort.nodeId = nid).map Edge.id)
      refine ⟨?_, ?_, ?_⟩
      · rw [hfr.2]
        exact QuadTree.wf_remove _ _ hwf
      · rw [hfr.2, hfr.1]
        show QuadTree.itemsM (QuadTree.remove g.nodeQuadTree nid).1 = _
        rw [hX]
        rw [show (({ g with
          nodeQuadTree := (QuadTree.remove g.nodeQuadTree nid).1 } :
            Graph).nodes) = g.nodes from rfl]
        rw [hm, alDelete_split hnotin]
      · rw [hfr.1]
        rw [show (({ g with
          nodeQuadTree := (QuadTree.remove g.nodeQuadTree nid).1 } :
            Graph).nodes) = g.nodes from rfl]
        rw [hm, alDelete_split hnotin]
        exact hnd12

/-! ## Claim theorems -/

/-- C8: `QuadTree.insert` returns `false` exactly when the item's bounds
are not fully contained in the tree's bounds, and whenever the containment
check passes the insertion succeeds and the item is stored at some node of
the tree. -/
theorem claim_C8_insert_contract (t : QuadTree) (it : QTItem) :
    (QuadTree.insert t it).2 = boundsContains t.boundsOf it.bounds ∧
    (boundsContains t.boundsOf it.bounds = true →
      it ∈ QuadTree.allItems (QuadTree.insert t it).1) := by
  refine ⟨QuadTree.insert_snd t it, fun h => ?_⟩
  have hsnd : (QuadTree.insert t it).2 = true := by
    rw [QuadTree.insert_snd t it, h]
  have hM := QuadTree.insert_itemsM hsnd
  have hmem : it ∈ QuadTree.itemsM (QuadTree.insert t it).1 := by
    rw [hM]
    exact Multiset.mem_cons_self _ _
  rwa [QuadTree.itemsM, Multiset.mem_coe] at hmem

unseal Rat.add Rat.mul Rat.inv Rat.sub in
/-- Witness for C8 at a concrete tree and item. -/
theorem claim_C8_witness :
    (QuadTree.insert (QuadTree.make worldBounds 0)
      ⟨"a", ⟨0, 0, 5, 5⟩⟩).2 = boundsContains worldBounds ⟨0, 0, 5, 5⟩ ∧
    QTItem.mk "a" ⟨0, 0, 5, 5⟩ ∈ QuadTree.allItems
      (QuadTree.insert (QuadTree.make worldBounds 0)
        ⟨"a", ⟨0, 0, 5, 5⟩⟩).1 :=
  ⟨(claim_C8_insert_contract (QuadTree.make worldBounds 0)
      ⟨"a", ⟨0, 0, 5, 5⟩⟩).1,
   (claim_C8_insert_contract (QuadTree.make worldBounds 0)
      ⟨"a", ⟨0, 0, 5, 5⟩⟩).2 (by decide)⟩

/-- C7: `addEdge` returns `undefined` when the two ports have the same
kind, and when the designated source port is an input port; the failure is
caught inside `addEdge`, which is a total function here. -/
theorem claim_C7_addEdge_rejects (g : Graph) (sourcePort targetPort : Port)
    (h : sourcePort.type = targetPort.type ∨ sourcePort.type = .input) :
    (Graph.addEdge g sourcePort targetPort).2.1 = none := by
  unfold Graph.addEdge Graph.createEdge Edge.make
  by_cases hid : sourcePort.id = targetPort.id <;>
    rcases h with h | h <;>
    by_cases hk : sourcePort.type = targetPort.type <;>
    simp_all [alSet, alGet_cons]

/-- Witness for C7: connecting two input ports fails. -/
theorem claim_C7_witness :
    ((Port.make fixPortI1).type = (Port.make fixPortI1).type ∨
      (Port.make fixPortI1).type = .input) ∧
    (Graph.addEdge fixGraph (Port.make fixPortI1)
      (Port.make fixPortI1)).2.1 = none :=
  ⟨Or.inl rfl,
   claim_C7_addEdge_rejects fixGraph (Port.make fixPortI1)
     (Port.make fixPortI1) (Or.inl rfl)⟩

/-- C9: a failed `addEdge` leaves the graph unchanged and emits no
events (in particular no `edge:added`). -/
theorem claim_C9_failed_addEdge_noop (g : Graph) (sourcePort targetPort : Port)
    (h : (Graph.addEdge g sourcePort targetPort).2.1 = none) :
    (Graph.addEdge g sourcePort targetPort).1 = g ∧
    (Graph.addEdge g sourcePort targetPort).2.2 = [] := by
  unfold Graph.addEdge at h ⊢
  rcases hc : Graph.createEdge g
      { id := "edge-" ++ sourcePort.id ++ "-" ++ targetPort.id,
        sourcePortId := sourcePort.id, targetPortId := targetPort.id }
      (alSet (alSet [] sourcePort.id sourcePort) targetPort.id targetPort)
    with msg | r
  · exact ⟨rfl, rfl⟩
  · rw [hc] at h
    simp at h

unseal Rat.add Rat.mul Rat.inv Rat.sub in
/-- Witness for C9 at a concrete failing call. -/
theorem claim_C9_witness :
    (Graph.addEdge fixGraph (Port.make fixPortI1)
      (Port.make fixPortI1)).1 = fixGraph ∧
    (Graph.addEdge fixGraph (Port.make fixPortI1)
      (Port.make fixPortI1)).2.2 = [] :=
  claim_C9_failed_addEdge_noop fixGraph (Port.make fixPortI1)
    (Port.make fixPortI1) (by decide)

/-- C10: `addNode` stores a fresh node rebuilt from the argument's
`toJSON()` snapshot (with its bounds getter invoked by `createNode`), and
the result of `addNode` depends on the argument only through that
snapshot — so later mutation of the argument object cannot affect the
graph. -/
theorem claim_C10_addNode_reconstructs (g : Graph) (n : Node) :
    Graph.getNode (Graph.addNode g n).1 n.id =
      some (Node.getBounds (Node.make (Node.toJSONData n))).1 ∧
    ∀ m : Node, Node.toJSONData m = Node.toJSONData n →
      Graph.addNode g m = Graph.addNode g n := by
  constructor
  · unfold Graph.addNode Graph.createNode Graph.getNode
    exact alGet_alSet _ _ _
  · intro m hm
    unfold Graph.addNode
    rw [hm]

unseal Rat.add Rat.mul Rat.inv Rat.sub in
/-- Witness for C10: resizing the argument before `addNode` is invisible
(`setSize` is not serialized), and the stored node is the reconstruction. -/
theorem claim_C10_witness :
    (Graph.getNode (Graph.addNode fixGraph (Node.make fixNode1)).1
        (Node.make fixNode1).id =
      some (Node.getBounds
        (Node.make (Node.toJSONData (Node.make fixNode1)))).1) ∧
    Graph.addNode fixGraph
        { Node.make fixNode1 with width := 200, height := 80 } =
      Graph.addNode fixGraph (Node.make fixNode1) :=
  ⟨(claim_C10_addNode_reconstructs fixGraph (Node.make fixNode1)).1,
   (claim_C10_addNode_reconstructs fixGraph (Node.make fixNode1)).2
     { Node.make fixNode1 with width := 200, height := 80 } (by decide)⟩

/-- A successful `createEdge` emits exactly one `edge:added` event. -/
theorem createEdge_events {g : Graph} {data : EdgeData}
    {pm : List (String × Port)} {r : Graph × Edge × List GEvent}
    (hc : Graph.createEdge g data pm = .ok r) :
    ∃ x, r.2.2 = [GEvent.edgeAdded x] := by
  unfold Graph.createEdge at hc
  rcases hmk : Edge.make data pm g.nodes with msg | edge <;> rw [hmk] at hc
  · simp at hc
  · simp only [] at hc
    rcases hb : Edge.getBoundsM g.nodes edge with _ | rb <;> rw [hb] at hc
    · simp at hc
    · simp only [Except.ok.injEq] at hc
      exact ⟨edge.id, by rw [← hc]⟩

/-- C3 (code bug): no `addEdge` call ever emits a graph-level
`port:connected` event — the Graph wires its `connected` listener only
after the Edge constructor has already emitted `connected`, so the event
surface of a successful creation is `edge:added` alone. -/
theorem claim_C3_no_port_connected (g : Graph) (sourcePort targetPort : Port)
    (eid : String) :
    GEvent.portConnected eid ∉ (Graph.addEdge g sourcePort targetPort).2.2 := by
  unfold Graph.addEdge
  rcases hc : Graph.createEdge g
      { id := "edge-" ++ sourcePort.id ++ "-" ++ targetPort.id,
        sourcePortId := sourcePort.id, targetPortId := targetPort.id }
      (alSet (alSet [] sourcePort.id sourcePort) targetPort.id targetPort)
    with msg | r
  · simp
  · obtain ⟨x, hx⟩ := createEdge_events hc
    simp [hx]

/-- C3 witness: a concrete `addEdge` call (the fixture one, which
succeeds) delivers no `port:connected`. -/
theorem claim_C3_witness :
    GEvent.portConnected "edge-o1-i1" ∉
      (Graph.addEdge fixGraph fixP_o1 fixP_i1).2.2 :=
  claim_C3_no_port_connected fixGraph fixP_o1 fixP_i1 "edge-o1-i1"

unseal Rat.add Rat.mul Rat.inv Rat.sub in
/-- C1 counterexample: a node stored at (20000, 0) lies outside the
quadtrees' world rectangle, so its index insert fails silently and
`getNodesInBounds` misses it although its current bounds intersect the
query region. -/
theorem claim_C1_counterexample :
    ((Graph.getNode farGraph "n1").map fun n =>
      boundsIntersects (Node.boundsRect n) ⟨19500, -50, 1000, 100⟩) =
        some true ∧
    Graph.getNodesInBounds farGraph ⟨19500, -50, 1000, 100⟩ = [] := by
  decide

/-- C1 (amended): whenever the node map and the node quadtree are
consistent — as the Graph maintains for nodes whose rectangles stay inside
the world rectangle and whose ids are fresh on insertion —
`getNodesInBounds R` returns exactly the stored nodes whose current bounds
intersect `R` (edge-touching counts), up to ordering. -/
theorem claim_C1_query_exact {g : Graph} (hinv : Graph.nodeInv g)
    (R : Bounds) :
    (Graph.getNodesInBounds g R).Perm
      ((alValues g.nodes).filter fun n =>
        boundsIntersects (Node.boundsRect n) R) :=
  getNodesInBounds_exact hinv R

unseal Rat.add Rat.mul Rat.inv Rat.sub in
/-- Witness for C1 on the fixture graph. -/
theorem claim_C1_witness :
    Graph.nodeInv fixGraph ∧
    (Graph.getNodesInBounds fixGraph ⟨-10, -10, 20, 20⟩).Perm
      ((alValues fixGraph.nodes).filter fun n =>
        boundsIntersects (Node.boundsRect n) ⟨-10, -10, 20, 20⟩) :=
  ⟨by decide, claim_C1_query_exact (by decide) ⟨-10, -10, 20, 20⟩⟩

/-- `getNode` after `moveNode`: the stored node is the moved node with its
bounds cache refilled by the re-indexing listener. -/
theorem moveNode_getNode {g : Graph} {nid : String} {n : Node} (x y : ℚ)
    (hget : alGet g.nodes nid = some n) :
    Graph.getNode (Graph.moveNode g nid x y).1 nid =
      some (Node.getBounds (Node.setPositionState n x y)).1 := by
  simp only [Graph.moveNode, hget, Graph.getNode]
  exact alGet_alSet _ _ _

unseal Rat.add Rat.mul Rat.inv Rat.sub in
/-- C6 counterexample: moving a node to (20000, 0) pushes its bounds
outside the world rectangle; the re-index insert fails silently, and the
next query does not return the node although the region intersects its new
bounds. -/
theorem claim_C6_counterexample :
    ((Graph.getNode (Graph.moveNode fixGraph "n1" 20000 0).1 "n1").map
      fun n => (n.x, boundsIntersects (Node.boundsRect n)
        ⟨19500, -50, 1000, 100⟩)) = some (20000, true) ∧
    Graph.getNodesInBounds (Graph.moveNode fixGraph "n1" 20000 0).1
      ⟨19500, -50, 1000, 100⟩ = [] := by
  decide

/-- C6 (amended): under the same consistency invariant, when the moved
node's new rectangle stays inside the index's world rectangle, the next
`getNodesInBounds` reflects exactly the new bounds: the moved node is
returned for a region iff the region intersects its new rectangle (so
never for a region meeting only the pre-move rectangle). -/
theorem claim_C6_move_reflects {g : Graph} {nid : String} {n : Node}
    (x y : ℚ) (hinv : Graph.nodeInv g) (hget : alGet g.nodes nid = some n)
    (hcont : boundsContains g.nodeQuadTree.boundsOf
      (Node.boundsRect (Node.setPositionState n x y)) = true) :
    ∃ n', Graph.getNode (Graph.moveNode g nid x y).1 nid = some n' ∧
      n'.x = x ∧ n'.y = y ∧
      ∀ R, (n' ∈ Graph.getNodesInBounds (Graph.moveNode g nid x y).1 R ↔
        boundsIntersects (Node.boundsRect n') R = true) := by
  have hinv' := nodeInv_moveNode hinv (fun m hm => by
    rw [hget] at hm
    cases hm
    exact hcont)
  refine ⟨(Node.getBounds (Node.setPositionState n x y)).1,
    moveNode_getNode x y hget, rfl, rfl, ?_⟩
  intro R
  have hex := getNodesInBounds_exact hinv' R
  constructor
  · intro hmem
    exact (List.mem_filter.mp (hex.mem_iff.mp hmem)).2
  · intro hint
    refine hex.mem_iff.mpr (List.mem_filter.mpr ⟨?_, hint⟩)
    have hg := moveNode_getNode x y hget
    simp only [Graph.getNode] at hg
    exact List.mem_map_of_mem Prod.snd (alGet_mem hg)

unseal Rat.add Rat.mul Rat.inv Rat.sub in
/-- Witness for C6: moving the fixture node to (50, 50). -/
theorem claim_C6_witness :
    ∃ n', Graph.getNode (Graph.moveNode fixGraph "n1" 50 50).1 "n1" =
        some n' ∧ n'.x = 50 ∧ n'.y = 50 ∧
      ∀ R, (n' ∈ Graph.getNodesInBounds
          (Graph.moveNode fixGraph "n1" 50 50).1 R ↔
        boundsIntersects (Node.boundsRect n') R = true) :=
  claim_C6_move_reflects
    (n := (Graph.getNode fixGraph "n1").getD (Node.make fixNode1))
    50 50 (by decide) (by decide) (by decide)

unseal Rat.add Rat.mul Rat.inv Rat.sub in
/-- C2 counterexample: after creating the fixture edge (whose bounds were
cached at creation) and moving its source node, `getBounds()` still
returns the pre-move rectangle; only an explicit `clearCache()` makes it
recompute from the new port positions. -/
theorem claim_C2_counterexample :
    (Graph.edgeGetBounds (Graph.moveNode fixGraphE "n1" 0 50).1
      "edge-o1-i1").map Prod.snd = some ⟨10, 0, 80, 0⟩ ∧
    (Graph.edgeGetBounds (Graph.edgeClearCache
        (Graph.moveNode fixGraphE "n1" 0 50).1 "edge-o1-i1")
      "edge-o1-i1").map Prod.snd = some ⟨10, 0, 80, 50⟩ ∧
    (⟨10, 0, 80, 0⟩ : Bounds) ≠ ⟨10, 0, 80, 50⟩ := by
  refine ⟨by decide, by decide, by decide⟩

/-- C2 (amended): the Graph registers no listener that invalidates Edge
caches on node movement — `moveNode` leaves the edge map (including every
cache entry) untouched — and `getBounds()` on an edge whose `bounds` cache
entry is populated returns the cached rectangle, not one recomputed from
the endpoint nodes' current positions. -/
theorem claim_C2_no_invalidation :
    (∀ (g : Graph) (nid : String) (x y : ℚ),
      (Graph.moveNode g nid x y).1.edges = g.edges) ∧
    (∀ (g : Graph) (eid : String) (e : Edge) (b : Bounds),
      alGet g.edges eid = some e → e.cacheBounds = some b →
      (Graph.edgeGetBounds g eid).map Prod.snd = some b) := by
  constructor
  · intro g nid x y
    unfold Graph.moveNode
    rcases alGet g.nodes nid with _ | n
    · rfl
    · rfl
  · intro g eid e b hget hcache
    simp only [Graph.edgeGetBounds, hget, Edge.getBoundsM, hcache,
      Option.map_some]
    rfl

unseal Rat.add Rat.mul Rat.inv Rat.sub in
/-- Witness for C2 at the fixture edge (cached rectangle from creation). -/
theorem claim_C2_witness :
    (Graph.moveNode fixGraphE "n1" 0 50).1.edges = fixGraphE.edges ∧
    (Graph.edgeGetBounds fixGraphE "edge-o1-i1").map Prod.snd =
      some ⟨10, 0, 80, 0⟩ :=
  ⟨claim_C2_no_invalidation.1 fixGraphE "n1" 0 50,
   claim_C2_no_invalidation.2 fixGraphE "edge-o1-i1" fixEdgeStored
     ⟨10, 0, 80, 0⟩ (by decide) (by decide)⟩
/-- C5: for every graph whose node and edge maps have distinct keys and
whose edges are stored under their own ids (all invariants the Graph
maintains), removing a present node first removes every edge whose source
or target port is owned by that node, so afterwards `getEdges()` contains
no edge referencing the removed node and `getNode(id)` is undefined. -/
theorem claim_C5_removeNode_cascade {g : Graph} {nid : String} {n : Node}
    (hget : alGet g.nodes nid = some n)
    (hndN : (alKeys g.nodes).Nodup)
    (hndE : (alKeys g.edges).Nodup)
    (hids : ∀ kv ∈ g.edges, kv.1 = Edge.id kv.2) :
    Graph.getNode (Graph.removeNode g nid).1 nid = none ∧
    ∀ e ∈ Graph.getEdges (Graph.removeNode g nid).1,
      e.sourcePort.nodeId ≠ nid ∧ e.targetPort.nodeId ≠ nid := by
  have hfound := removeNode_found hget
  constructor
  · show alGet (Graph.removeNode g nid).1.nodes nid = none
    rw [hfound.1]
    exact alGet_alDelete_self hndN
  · intro e he
    have he' : e ∈ alValues (Graph.removeNode g nid).1.edges := he
    rw [hfound.2] at he'
    rcases List.mem_map.mp he' with ⟨kv, hkv, hsnd⟩
    have hmem := mem_foldl_alDelete _ _ kv hndE hkv
    have hnot : ¬(e.sourcePort.nodeId = nid ∨ e.targetPort.nodeId = nid) := by
      intro hinc
      apply hmem.2
      rw [hids kv hmem.1, hsnd]
      refine List.mem_map_of_mem Edge.id (List.mem_filter.mpr ?_)
      exact ⟨hsnd ▸ List.mem_map_of_mem Prod.snd hmem.1, by
        exact decide_eq_true hinc⟩
    push_neg at hnot
    exact hnot

unseal Rat.add Rat.mul Rat.inv Rat.sub in
/-- Witness for C5 on the fixture graph holding the edge `edge-o1-i1`. -/
theorem claim_C5_witness :
    Graph.getNode (Graph.removeNode fixGraphE "n1").1 "n1" = none ∧
    ∀ e ∈ Graph.getEdges (Graph.removeNode fixGraphE "n1").1,
      e.sourcePort.nodeId ≠ "n1" ∧ e.targetPort.nodeId ≠ "n1" :=
  claim_C5_removeNode_cascade
    (n := (Graph.getNode fixGraphE "n1").getD (Node.make fixNode1))
    (by decide) (by decide) (by decide) (by decide)

unseal Rat.add Rat.mul Rat.inv Rat.sub in
/-- C4 counterexample: the rogue-port edge is stored and serialized, but
reloading the graph's own `toJSON()` output throws ("Port not found"),
because `initializeGraph` constructs each serialized edge outside any
try/catch and the port map of the reloaded graph only holds attached
ports. -/
theorem claim_C4_counterexample :
    (Graph.getEdge fixGraphRogue "edge-px-i1").isSome = true ∧
    exceptError
        (Graph.loadJSON fixGraphRogue (Graph.toJSONData fixGraphRogue)) =
      some "Port not found" := by
  decide

unseal Rat.add Rat.mul Rat.inv Rat.sub in
/-- Witness for C4 (amended) on the fixture graph with one well-formed
edge. -/
theorem claim_C4_witness :
    ∃ g2 ev, Graph.loadJSON fixGraphE (Graph.toJSONData fixGraphE) =
        .ok (g2, ev) ∧
      (alValues g2.nodes).map Node.toJSONData =
        (alValues fixGraphE.nodes).map Node.toJSONData ∧
      (alValues g2.edges).map connOf =
        (alValues fixGraphE.edges).map connOf :=
  claim_C4_roundtrip (by decide) (by decide) (by decide) (by decide)
    (by decide)

end LogicJS

namespace LogicJS

unseal Rat.add Rat.mul Rat.inv Rat.sub in
example :
    (QuadTree.insert (QuadTree.make ⟨0, 0, 100, 100⟩ 0)
      ⟨"a", ⟨10, 10, 5, 5⟩⟩).2 = true := by decide

unseal Rat.add Rat.mul Rat.inv Rat.sub in
example :
    (QuadTree.insert (QuadTree.make ⟨0, 0, 100, 100⟩ 0)
      ⟨"a", ⟨110, 10, 5, 5⟩⟩).2 = false := by decide

unseal Rat.add Rat.mul Rat.inv Rat.sub in
example :
    QuadTree.query
      (QuadTree.insert (QuadTree.make ⟨0, 0, 100, 100⟩ 0)
        ⟨"a", ⟨10, 10, 5, 5⟩⟩).1 ⟨0, 0, 20, 20⟩ =
      [⟨"a", ⟨10, 10, 5, 5⟩⟩] := by decide

unseal Rat.add Rat.mul Rat.inv Rat.sub in
example :
    let t5 := [QTItem.mk "a" ⟨1, 1, 2, 2⟩, .mk "b" ⟨2, 2, 2, 2⟩,
      .mk "c" ⟨3, 3, 2, 2⟩, .mk "d" ⟨4, 4, 2, 2⟩,
      .mk "e" ⟨60, 60, 2, 2⟩].foldl
        (fun t it => (QuadTree.insert t it).1) (QuadTree.make ⟨0, 0, 100, 100⟩ 0)
    ((QuadTree.remove t5 "b").1.allItems.map QTItem.id,
     (QuadTree.query t5 ⟨50, 50, 50, 50⟩).map QTItem.id) =
      (["a", "c", "d", "e"], ["e"]) := by decide

end LogicJS
